import Mathlib

/-!
# Verification of the homelab-manager automation subsystem

Shallow embedding, in Lean 4, of the parts of the `homelab-manager`
repository that the frozen claims are about:

* the worker runtime `backend/app/tasks/automation.py` (secret redaction,
  log truncation, the streaming loop with progress tracking and
  cancellation, and the Celery task `run_ansible_playbook`);
* the executor path-safety check `backend/app/services/executors/ansible.py`;
* the vault `backend/app/services/vault.py` (key derivation with SHA-256 and
  url-safe base64, Fernet encrypt/decrypt);
* the workflow engine `backend/app/services/workflow_engine.py` (rollback);
* the HTTP handlers `backend/app/routes/workflows.py` (template validation)
  and `backend/app/routes/automation.py` (re-run).

Python strings are modelled as `List Char`, bytes as `List Nat`
(each element < 256), nonnegative Python integers as `Nat` and step orders
as `Int`.  Database commits are modelled by collecting the job record's
value at every `db.commit()` call site.
-/

set_option maxRecDepth 10000

namespace Homelab

/-- Python `str` values are modelled as lists of characters. -/
abbrev Chars := List Char

/-- ASCII double quote (used by the redaction regexes). -/
def dq : Char := Char.ofNat 34

/-- ASCII single quote (used by the redaction regexes). -/
def sq : Char := Char.ofNat 39

/-- The characters matched by the regex class `\s` on ASCII text, which is
also the set stripped by Python `str.rstrip()` for ASCII input. -/
def isSpaceC (c : Char) : Bool :=
  c = ' ' || c = '\t' || c = '\n' || c = '\r' || c = Char.ofNat 11 || c = Char.ofNat 12

/-- `str.rstrip()`: drop trailing whitespace. -/
def rstrip (s : Chars) : Chars :=
  (s.reverse.dropWhile isSpaceC).reverse

/-! ## The redaction engine (`SENSITIVE_PATTERNS` and `_redact_sensitive_data`)

Each compiled regex of `SENSITIVE_PATTERNS` is embedded as a matcher
`Chars → Option (Chars × Chars)` that, at the current scan position,
either fails or returns the replacement text together with the input
remaining after the match — exactly the information `re.sub` uses.
`re.sub`'s leftmost, non-overlapping scan is `subF` below.

The keyword alternations of the source patterns (for example
`password|passwd|pwd`) are pairwise incompatible — no input prefix can
match one alternative and also be a proper prefix situation for a later
one — so trying the alternatives in order without re-entry on continuation
failure gives exactly the backtracking regex semantics. -/

/-- Case-insensitive literal match at the head of the input.  Returns the
matched input characters (original case — regex group 1 text) and the rest. -/
def litCI : Chars → Chars → Option (Chars × Chars)
  | [], s => some ([], s)
  | _ :: _, [] => none
  | k :: ks, c :: cs =>
    if c.toLower = k.toLower then
      match litCI ks cs with
      | some (m, r) => some (c :: m, r)
      | none => none
    else none

/-- Case-sensitive literal match at the head of the input; returns the rest. -/
def litCS : Chars → Chars → Option Chars
  | [], s => some s
  | _ :: _, [] => none
  | k :: ks, c :: cs => if c = k then litCS ks cs else none

/-- Maximal run of characters satisfying `p` (greedy `X*` for a class `X`):
returns the run and the rest. -/
def takeClass (p : Char → Bool) : Chars → Chars × Chars
  | [] => ([], [])
  | c :: cs =>
    if p c then
      let t := takeClass p cs
      (c :: t.1, t.2)
    else ([], c :: cs)

/-- First keyword alternative that matches (regex alternation, tried in
pattern order). -/
def firstKw : List (Chars → Option (Chars × Chars)) → Chars → Option (Chars × Chars)
  | [], _ => none
  | m :: ms, s =>
    match m s with
    | some r => some r
    | none => firstKw ms s

/-- A plain keyword alternative such as `password`. -/
def kwLit (k : String) : Chars → Option (Chars × Chars) := litCI k.data

/-- A keyword alternative of the form `pre[_-]?post` (for example
`api[_-]?key`): the optional separator is consumed greedily, falling back
to the separator-less parse when the suffix fails after it. -/
def kwSep (pre post : String) (s : Chars) : Option (Chars × Chars) :=
  match litCI pre.data s with
  | none => none
  | some (m1, r1) =>
    match r1 with
    | [] => none
    | c :: r2 =>
      if c = '_' || c = '-' then
        match litCI post.data r2 with
        | some (m2, r3) => some (m1 ++ c :: m2, r3)
        | none =>
          match litCI post.data r1 with
          | some (m2, r3) => some (m1 ++ m2, r3)
          | none => none
      else
        match litCI post.data r1 with
        | some (m2, r3) => some (m1 ++ m2, r3)
        | none => none

/-- Value class `[^\s]+` of patterns 2 and 4. -/
def valNoSpace (c : Char) : Bool := !(isSpaceC c)

/-- Value class `[^\s"\x27]+` of patterns 1, 3 and 5 (no whitespace and no
quotes). -/
def valNoSpaceQuote (c : Char) : Bool := !(isSpaceC c) && c != dq && c != sq

/-- The shared shape `KEYWORDS\s*[:=]\s*QUOTE?VALUE` of redaction patterns
1–5.  When the optional quote is consumed, the value still has to be
nonempty; since the value classes exclude quotes, retrying without the
quote cannot succeed either, so this is the exact backtracking semantics. -/
def matchKV (kws : List (Chars → Option (Chars × Chars))) (allowQuote : Bool)
    (valC : Char → Bool) (s : Chars) : Option (Chars × Chars) :=
  match firstKw kws s with
  | none => none
  | some (g1, r1) =>
    match (takeClass isSpaceC r1).2 with
    | [] => none
    | c :: r3 =>
      if c = ':' || c = '=' then
        let r4 := (takeClass isSpaceC r3).2
        let r5 :=
          if allowQuote then
            match r4 with
            | [] => ([] : Chars)
            | q :: rq => if q = dq || q = sq then rq else q :: rq
          else r4
        match takeClass valC r5 with
        | ([], _) => none
        | (_ :: _, r6) => some (g1, r6)
      else none

/-- The replacement tail of `\1=***REDACTED***`. -/
def redactedEq : Chars := "=***REDACTED***".data

/-- A key/value redaction pattern with replacement `\1=***REDACTED***`. -/
def patKV (kws : List (Chars → Option (Chars × Chars))) (allowQuote : Bool)
    (valC : Char → Bool) (s : Chars) : Option (Chars × Chars) :=
  match matchKV kws allowQuote valC s with
  | some (g1, rest) => some (g1 ++ redactedEq, rest)
  | none => none

/-- Pattern 1: `(password|passwd|pwd)\s*[:=]\s*["\x27]?[^\s"\x27]+`. -/
def pat1 : Chars → Option (Chars × Chars) :=
  patKV [kwLit "password", kwLit "passwd", kwLit "pwd"] true valNoSpaceQuote

/-- Pattern 2: `(ansible_password|ansible_become_pass|ansible_ssh_pass)\s*[:=]\s*[^\s]+`. -/
def pat2 : Chars → Option (Chars × Chars) :=
  patKV [kwLit "ansible_password", kwLit "ansible_become_pass", kwLit "ansible_ssh_pass"]
    false valNoSpace

/-- Pattern 3: `(api[_-]?key|api[_-]?secret|token|bearer)\s*[:=]\s*["\x27]?[^\s"\x27]+`. -/
def pat3 : Chars → Option (Chars × Chars) :=
  patKV [kwSep "api" "key", kwSep "api" "secret", kwLit "token", kwLit "bearer"]
    true valNoSpaceQuote

/-- Pattern 4: `(aws_access_key_id|aws_secret_access_key)\s*[:=]\s*[^\s]+`. -/
def pat4 : Chars → Option (Chars × Chars) :=
  patKV [kwLit "aws_access_key_id", kwLit "aws_secret_access_key"] false valNoSpace

/-- Pattern 5: `(secret|private[_-]?key)\s*[:=]\s*["\x27]?[^\s"\x27]+`. -/
def pat5 : Chars → Option (Chars × Chars) :=
  patKV [kwLit "secret", kwSep "private" "key"] true valNoSpaceQuote

/-- `[A-Z ]` of the private-key pattern (this pattern is compiled with
`re.DOTALL` only, so it is case-sensitive). -/
def isUpperSp (c : Char) : Bool := ('A' ≤ c && c ≤ 'Z') || c = ' '

/-- Greedy `X+` for a class `X` immediately followed by a literal, with
regex backtracking: longer runs are preferred, shorter ones tried on
failure, at least one class character is consumed. -/
def classPlusLit (p : Char → Bool) (lit : Chars) : Chars → Option Chars
  | [] => none
  | c :: cs =>
    if p c then
      match classPlusLit p lit cs with
      | some r => some r
      | none => litCS lit cs
    else none

/-- The END trailer `-----END [A-Z ]+ PRIVATE KEY-----` at the head. -/
def pemEnd (s : Chars) : Option Chars :=
  match litCS "-----END ".data s with
  | some r1 => classPlusLit isUpperSp " PRIVATE KEY-----".data r1
  | none => none

/-- Lazy `.*?` (with `re.DOTALL`) up to the END trailer: the earliest
position at which the trailer matches wins. -/
def findEnd : Chars → Option Chars
  | [] => none
  | c :: cs =>
    match pemEnd (c :: cs) with
    | some r => some r
    | none => findEnd cs

/-- Pattern 6: `-----BEGIN [A-Z ]+ PRIVATE KEY-----.*?-----END [A-Z ]+ PRIVATE KEY-----`
(DOTALL), replaced by `***PRIVATE KEY REDACTED***`. -/
def pat6 (s : Chars) : Option (Chars × Chars) :=
  match litCS "-----BEGIN ".data s with
  | none => none
  | some r1 =>
    match classPlusLit isUpperSp " PRIVATE KEY-----".data r1 with
    | none => none
    | some r2 =>
      match findEnd r2 with
      | none => none
      | some r3 => some ("***PRIVATE KEY REDACTED***".data, r3)

/-- `re.sub` scan: leftmost, non-overlapping; after a match the scan resumes
after the matched text.  The fuel is the input length (every matcher here
consumes at least one character, so this fuel always suffices). -/
def subF (m : Chars → Option (Chars × Chars)) : Nat → Chars → Chars
  | 0, s => s
  | _ + 1, [] => []
  | fuel + 1, c :: s =>
    match m (c :: s) with
    | some (repl, rest) => repl ++ subF m fuel rest
    | none => c :: subF m fuel s

/-- `pattern.sub(replacement, s)`. -/
def reSub (m : Chars → Option (Chars × Chars)) (s : Chars) : Chars :=
  subF m s.length s

/-- `MAX_LOG_OUTPUT_SIZE = 100_000` — "Maximum log output size (characters)
to store". -/
def MAX_LOG_OUTPUT_SIZE : Nat := 100000

/-- The truncation marker appended by `_redact_sensitive_data`. -/
def truncMarker : Chars := "\n\n... [OUTPUT TRUNCATED - exceeded 100KB limit]".data

/-- `_redact_sensitive_data`: apply the six patterns in order, then truncate
to `MAX_LOG_OUTPUT_SIZE` characters plus the marker if the result is longer
than that bound.  (On empty input the function returns its input at once;
the pipeline below gives the same value.) -/
def redact_sensitive_data (s : Chars) : Chars :=
  let r := reSub pat6 (reSub pat5 (reSub pat4 (reSub pat3 (reSub pat2 (reSub pat1 s)))))
  if MAX_LOG_OUTPUT_SIZE < r.length then r.take MAX_LOG_OUTPUT_SIZE ++ truncMarker else r

/-- Does the scan of `re.sub` find at least one match of the pattern in the
text (`pattern.search` would succeed)?  Fuel as in `subF`. -/
def hasMatchF (m : Chars → Option (Chars × Chars)) : Nat → Chars → Bool
  | 0, _ => false
  | _ + 1, [] => false
  | fuel + 1, c :: s =>
    match m (c :: s) with
    | some _ => true
    | none => hasMatchF m fuel s

/-- The text contains a substring matching the pattern. -/
def hasMatch (m : Chars → Option (Chars × Chars)) (s : Chars) : Bool :=
  hasMatchF m s.length s

/-! ## The job record (`backend/app/models/automation_job.py`)

Timestamps are abstract instants (`Nat`); the opaque JSON payloads
`action_config` and `extra_vars` are carried as uninterpreted character
data.  Python's nonnegative integer columns are `Nat`. -/

/-- `JobStatus`. -/
inductive JobStatus
  | pending
  | running
  | completed
  | failed
  | cancelled
deriving DecidableEq

/-- The `automation_jobs` record. -/
structure Job where
  id : Nat
  device_id : Nat
  device_ids : Option (List Nat)
  executor_type : Chars
  action_name : Chars
  action_config : Option Chars
  extra_vars : Option Chars
  status : JobStatus
  started_at : Option Nat
  completed_at : Option Nat
  log_output : Option Chars
  progress : Nat
  task_count : Nat
  tasks_completed : Nat
  error_category : Option Chars
  cancel_requested : Bool
  cancelled_at : Option Nat
  celery_task_id : Option Chars
  vault_secret_id : Option Nat
  workflow_instance_id : Option Nat
  step_order : Option Int
  depends_on_job_ids : Option (List Nat)
  is_rollback : Bool
deriving DecidableEq

/-! ## The streaming loop (`_execute_with_streaming`) -/

/-- `TASK_PATTERN.match(line)` for `^TASK \[(.+)\]`: the line starts with
`TASK [` and, within its newline-free segment from index 6 on, a `]`
appears after at least one captured character. -/
def taskLineMatch (l : Chars) : Bool :=
  "TASK [".data.isPrefixOf l && (((l.drop 6).takeWhile (fun c => c != '\n')).drop 1).contains ']'

/-- `CANCELLATION_CHECK_INTERVAL = 10`. -/
def CANCELLATION_CHECK_INTERVAL : Nat := 10

/-- State carried through the `for line in …` loop of
`_execute_with_streaming`: the in-memory job record, the line counter, the
accumulated (redacted) output lines, the payloads published so far on the
job's Redis channel, the job values committed so far, and whether
cancellation has been detected (`CancellationError`). -/
structure StreamAcc where
  job : Job
  lineCount : Nat
  outputLines : List Chars
  published : List Chars
  commits : List Job
  cancelled : Bool

/-- One iteration of the stream loop, for one raw subprocess line.
`flagAt n` is the `cancel_requested` value read back by `db.refresh(job)`
at the periodic check after line `n`.  Order as in the source: redact and
buffer, publish, track progress from `TASK` lines (committing every third
increment), then the periodic cancellation check. -/
def streamStep (flagAt : Nat → Bool) (acc : StreamAcc) (line : Chars) : StreamAcc :=
  if acc.cancelled then acc
  else
    let n := acc.lineCount + 1
    let safe := redact_sensitive_data (rstrip line)
    let outputLines := acc.outputLines ++ [safe]
    let published := acc.published ++ [safe]
    let jc :=
      if taskLineMatch line then
        let tc := acc.job.tasks_completed + 1
        if 0 < acc.job.task_count then
          let j := { acc.job with
            tasks_completed := tc
            progress := min (tc * 100 / acc.job.task_count) 99 }
          if tc % 3 = 0 then (j, acc.commits ++ [j]) else (j, acc.commits)
        else ({ acc.job with tasks_completed := tc }, acc.commits)
      else (acc.job, acc.commits)
    { job := jc.1
      lineCount := n
      outputLines := outputLines
      published := published
      commits := jc.2
      cancelled := n % CANCELLATION_CHECK_INTERVAL = 0 && flagAt n }

/-- The loop state at entry to the stream loop. -/
def initAcc (job : Job) : StreamAcc :=
  { job := job
    lineCount := 0
    outputLines := []
    published := []
    commits := []
    cancelled := false }

/-- The whole stream loop over the subprocess output lines. -/
def streamLoop (flagAt : Nat → Bool) (lines : List Chars) (job : Job) : StreamAcc :=
  lines.foldl (streamStep flagAt) (initAcc job)

/-- `"\n".join(output_lines)` — the accumulated output persisted to
`job.log_output` in the `finally` block. -/
def joinNL : List Chars → Chars
  | [] => []
  | [l] => l
  | l :: ls => l ++ '\n' :: joinNL ls

/-- The end-of-stream sentinel published on the job's channel. -/
def streamSentinel : Chars := "[[STREAM_COMPLETE]]".data

/-! ## The Celery task (`run_ansible_playbook`) -/

/-- `needle in haystack` on strings: some contiguous substring equals the
needle. -/
def containsSub (pat : Chars) : Chars → Bool
  | [] => pat.isEmpty
  | c :: cs => pat.isPrefixOf (c :: cs) || containsSub pat cs

/-- `_categorize_error` — substring checks on the lowered message. -/
def categorize_error (msg : Chars) : Chars :=
  let e := msg.map Char.toLower
  if containsSub "connection refused".data e || containsSub "unreachable".data e then
    "connectivity".data
  else if containsSub "permission denied".data e then "permission".data
  else if containsSub "not found".data e then "not_found".data
  else if containsSub "timeout".data e then "timeout".data
  else if containsSub "authentication".data e then "authentication".data
  else "execution".data

/-- The claim step of `run_ansible_playbook` (source lines 447–466): the
worker fetches the job and, when `cancel_requested` is already set,
cancels it; otherwise it unconditionally transitions the record to RUNNING
and goes on to spawn the subprocess.  The boolean is true when execution
proceeds (a subprocess will be spawned). -/
def claimStep (now : Nat) (taskId : Chars) (job : Job) : Job × Bool :=
  if job.cancel_requested then
    ({ job with
        status := .cancelled
        cancelled_at := some now
        log_output := some "Job cancelled before execution started.".data }, false)
  else
    ({ job with
        status := .running
        started_at := some now
        celery_task_id := some taskId }, true)

/-- How the run ends once the subprocess was spawned (cancellation is
decided separately, by the flag reads inside the stream loop):
`exited rc` — `process.wait` returned `rc`; `timedOut` —
`subprocess.TimeoutExpired`; `softLimit` — Celery's
`SoftTimeLimitExceeded`. -/
inductive RunOutcome
  | exited (rc : Int)
  | timedOut
  | softLimit
deriving DecidableEq

/-- The inputs of one delivery of the queue message to
`run_ansible_playbook`: the subprocess output lines, the values of the
job's `cancel_requested` flag as read back at each periodic check, the way
the wait ends, the raw task count parsed from the playbook
(`_count_tasks_in_playbook` clamps it to at least 1), an optional
validation failure (bad playbook name, traversal, missing file — the
`ValueError`/`FileNotFoundError` branch), the current instant and the
Celery task id. -/
structure WorkerInput where
  lines : List Chars
  flagAt : Nat → Bool
  outcome : RunOutcome
  rawTaskCount : Nat
  validationError : Option Chars
  now : Nat
  taskId : Chars

/-- The commits from the subprocess phase of `run_ansible_playbook`, given
the job as committed when the task count was persisted: the in-loop
batched progress commits followed by the terminal commit (cancellation,
exit, subprocess timeout or soft time limit, with `job.log_output` set by
the `finally` block of `_execute_with_streaming` before the handlers run). -/
def streamCommits (inp : WorkerInput) (j2 : Job) : List Job :=
  let acc := streamLoop inp.flagAt inp.lines j2
  let logJ := { acc.job with log_output := some (joinNL acc.outputLines) }
  if acc.cancelled then
    acc.commits ++
      [{ logJ with
          status := .cancelled
          cancelled_at := some inp.now
          log_output := some ((logJ.log_output.getD []) ++
            "\n\n--- Job cancelled by user ---".data) }]
  else
    match inp.outcome with
    | .exited rc =>
      let jfin :=
        if rc = 0 then
          { logJ with
            status := .completed
            progress := 100
            completed_at := some inp.now }
        else
          { logJ with
            status := .failed
            error_category := some "execution".data
            completed_at := some inp.now }
      acc.commits ++ [jfin]
    | .timedOut =>
      acc.commits ++
        [{ logJ with
           status := .failed
           completed_at := some inp.now
           error_category := some "timeout".data
           log_output := some (redact_sensitive_data (logJ.log_output.getD []) ++
             "\n\nERROR: Execution timed out".data) }]
    | .softLimit =>
      acc.commits ++
        [{ logJ with
           status := .failed
           completed_at := some inp.now
           error_category := some "timeout".data
           log_output := some (redact_sensitive_data (logJ.log_output.getD []) ++
             "\n\nERROR: Task exceeded time limit".data) }]

/-- The commit for a validation failure (bad playbook name, traversal,
missing file): the `except Exception` handler, no retry for these. -/
def validationFailJob (inp : WorkerInput) (j1 : Job) (msg : Chars) : Job :=
  { j1 with
    status := .failed
    completed_at := some inp.now
    error_category := some (categorize_error msg)
    log_output := some (redact_sensitive_data (j1.log_output.getD []) ++
      "\n\nERROR: ".data ++ redact_sensitive_data msg) }

/-- The sequence of job values committed by one delivery of the queue
message to `run_ansible_playbook` (every `db.commit()` call site in the
task, in order). -/
def run_ansible_playbook_commits (inp : WorkerInput) (job0 : Job) : List Job :=
  let c := claimStep inp.now inp.taskId job0
  if !c.2 then [c.1]
  else
    let j1 := c.1
    match inp.validationError with
    | some msg => [j1, validationFailJob inp j1 msg]
    | none =>
      let j2 := { j1 with task_count := max inp.rawTaskCount 1 }
      [j1, j2] ++ streamCommits inp j2

/-- The job value persisted last by a delivery (the terminal commit; the
commit list is never empty, so the default is never used). -/
def finalJob (inp : WorkerInput) (job0 : Job) : Job :=
  ((run_ansible_playbook_commits inp job0).getLast?).getD job0

/-! ## Path safety (`AnsibleExecutor.validate_config`)

The filesystem is abstract: `resolve` is `Path.resolve()` (absolute path
with symlinks followed) and `pathExists` is `Path.exists()`.  Paths are
their string representations.  `self.playbooks_dir` was resolved in
`__init__`; `validate_config` re-resolves it for the prefix check. -/

/-- An abstract filesystem as seen through `pathlib`. -/
structure FileSystem where
  resolve : Chars → Chars
  pathExists : Chars → Bool

/-- One character of the class `[a-zA-Z0-9_-]`. -/
def isSafeChar (c : Char) : Bool :=
  ('a' ≤ c && c ≤ 'z') || ('A' ≤ c && c ≤ 'Z') || ('0' ≤ c && c ≤ '9') || c = '_' || c = '-'

/-- `SAFE_ACTION_NAME_PATTERN.match(s)` for `^[a-zA-Z0-9_-]+$` under
Python `re` semantics: `$` also matches just before a newline that is the
last character, so a single trailing newline is tolerated. -/
def safe_action_name_match (s : Chars) : Bool :=
  let body := if s.getLast? = some '\n' then s.dropLast else s
  !body.isEmpty && body.all isSafeChar

/-- `PurePath` join and suffixing: `playbooks_dir / (action_name + ".yml")`. -/
def playbookPath (dir name : Chars) : Chars := dir ++ '/' :: (name ++ ".yml".data)

/-- `AnsibleExecutor.validate_config` (config is unused by the Ansible
executor): safe-name regex, then the `str.startswith` containment check of
the resolved path against the re-resolved playbook directory, then
existence. -/
def validate_config (fs : FileSystem) (playbooks_dir : Chars) (action_name : Chars) : Bool :=
  if !safe_action_name_match action_name then false
  else
    let playbook_path := fs.resolve (playbookPath playbooks_dir action_name)
    if !(fs.resolve playbooks_dir).isPrefixOf playbook_path then false
    else fs.pathExists playbook_path

/-- The specification-side notion "the resolved path lies within the
resolved action directory": the path is a proper descendant, i.e. extends
the directory across a path separator. -/
def pathWithinDir (dir p : Chars) : Bool := (dir ++ ['/']).isPrefixOf p

/-- The specification-side safe-name regex `^[A-Za-z0-9_-]+$`, read as a
whole-string match. -/
def SafeNameSpec (s : Chars) : Prop :=
  s ≠ [] ∧ ∀ c ∈ s, isSafeChar c = true

instance (s : Chars) : Decidable (SafeNameSpec s) := by
  unfold SafeNameSpec; infer_instance

/-! ## The vault (`backend/app/services/vault.py`) -/

/-- Modelled from the spec: the `Fernet` cipher comes from the external
`cryptography` library, whose code is not part of this repository.  Per
its documented contract (and §4.5 of the spec) it is authenticated
symmetric encryption: `encrypt` under a key yields a token; `decrypt`
under a key accepts exactly the tokens produced under that same key,
raising `InvalidToken` on any other bytes (tampered tokens, tokens under a
different key), and never returns partial output.  A token is modelled as
the key it was produced under together with the authenticated payload;
the UTF-8 encode/decode pair applied around it by `VaultService` is a
bijection on strings and is composed into the payload. -/
structure FernetToken where
  key : Nat
  payload : Chars
deriving DecidableEq

/-- `Fernet(key).encrypt(data)`. -/
def fernetEncrypt (key : Nat) (data : Chars) : FernetToken := ⟨key, data⟩

/-- `Fernet(key).decrypt(token)`: `none` models `InvalidToken`. -/
def fernetDecrypt (key : Nat) (tok : FernetToken) : Option Chars :=
  if tok.key = key then some tok.payload else none

/-- `VaultService.encrypt`. -/
def vaultEncrypt (key : Nat) (plaintext : Chars) : FernetToken :=
  fernetEncrypt key plaintext

/-- `VaultService.decrypt`: wraps `InvalidToken` into the
`ValueError("Failed to decrypt secret")` of the source. -/
def vaultDecrypt (key : Nat) (encrypted : FernetToken) : Except Chars Chars :=
  match fernetDecrypt key encrypted with
  | some p => .ok p
  | none => .error "Failed to decrypt secret".data

/-! ## Key derivation (`VaultService._derive_key`)

`_derive_key` needs `base64.urlsafe_b64decode`, `base64.urlsafe_b64encode`
and `hashlib.sha256`; these are embedded below over byte lists.  UTF-8
encoding of the configured key string models `str.encode()`. -/

/-- UTF-8 encoding of one character. -/
def utf8Char (c : Char) : List Nat :=
  let n := c.toNat
  if n < 128 then [n]
  else if n < 2048 then [192 + n / 64, 128 + n % 64]
  else if n < 65536 then [224 + n / 4096, 128 + n / 64 % 64, 128 + n % 64]
  else [240 + n / 262144, 128 + n / 4096 % 64, 128 + n / 64 % 64, 128 + n % 64]

/-- `str.encode("utf-8")`. -/
def utf8Encode (s : Chars) : List Nat := (s.map utf8Char).flatten

/-- The url-safe base64 code of a 6-bit group. -/
def b64Code (n : Nat) : Nat :=
  if n < 26 then 65 + n
  else if n < 52 then 71 + n
  else if n < 62 then n - 4
  else if n = 62 then 45
  else 95

/-- Decoding one base64 alphabet byte; accepts both the standard and the
url-safe alphabet (as `urlsafe_b64decode` does after its translation
step). -/
def b64DecCode (c : Nat) : Option Nat :=
  if 65 ≤ c && c ≤ 90 then some (c - 65)
  else if 97 ≤ c && c ≤ 122 then some (c - 71)
  else if 48 ≤ c && c ≤ 57 then some (c + 4)
  else if c = 45 || c = 43 then some 62
  else if c = 95 || c = 47 then some 63
  else none

/-- `base64.urlsafe_b64encode` over bytes (61 is `=`, the pad). -/
def b64EncodeBytes : List Nat → List Nat
  | [] => []
  | [b1] => [b64Code (b1 / 4), b64Code (b1 % 4 * 16), 61, 61]
  | [b1, b2] => [b64Code (b1 / 4), b64Code (b1 % 4 * 16 + b2 / 16), b64Code (b2 % 16 * 4), 61]
  | b1 :: b2 :: b3 :: rest =>
    b64Code (b1 / 4) :: b64Code (b1 % 4 * 16 + b2 / 16) ::
      b64Code (b2 % 16 * 4 + b3 / 64) :: b64Code (b3 % 64) :: b64EncodeBytes rest

/-- Base64 group decoding: four-character groups, with `=` padding allowed
in the final group. -/
def b64Groups : List Nat → Option (List Nat)
  | [] => some []
  | c1 :: c2 :: c3 :: c4 :: rest =>
    match b64DecCode c1, b64DecCode c2 with
    | some s1, some s2 =>
      if c3 = 61 && c4 = 61 && rest.isEmpty then
        some [s1 * 4 + s2 / 16]
      else
        match b64DecCode c3 with
        | some s3 =>
          if c4 = 61 && rest.isEmpty then
            some [s1 * 4 + s2 / 16, s2 % 16 * 16 + s3 / 4]
          else
            match b64DecCode c4 with
            | some s4 =>
              match b64Groups rest with
              | some ds => some ((s1 * 4 + s2 / 16) :: (s2 % 16 * 16 + s3 / 4) ::
                  (s3 % 4 * 64 + s4) :: ds)
              | none => none
            | none => none
        | none => none
    | _, _ => none
  | _ => none

/-- `base64.urlsafe_b64decode` applied to a Python `str`: the string must
be ASCII (`s.encode("ascii")`), characters outside the base64 alphabets
and the pad are discarded (`validate=False`), and what remains must decode
in groups of four. -/
def urlsafe_b64decode (bs : List Nat) : Option (List Nat) :=
  if bs.all (· < 128) then
    b64Groups (bs.filter (fun c => (b64DecCode c).isSome || c = 61))
  else none

/-! ### SHA-256 (`hashlib.sha256`) -/

/-- Truncation to a 32-bit word. -/
def w32 (n : Nat) : Nat := n % 4294967296

/-- Right rotation of a 32-bit word. -/
def rotr (k x : Nat) : Nat := w32 ((x >>> k) ||| (x <<< (32 - k)))

/-- 32-bit complement. -/
def notW (x : Nat) : Nat := 4294967295 - x % 4294967296

/-- The SHA-256 round constants. -/
def shaK : List Nat :=
  [1116352408, 1899447441, 3049323471, 3921009573,
   961987163, 1508970993, 2453635748, 2870763221,
   3624381080, 310598401, 607225278, 1426881987,
   1925078388, 2162078206, 2614888103, 3248222580,
   3835390401, 4022224774, 264347078, 604807628,
   770255983, 1249150122, 1555081692, 1996064986,
   2554220882, 2821834349, 2952996808, 3210313671,
   3336571891, 3584528711, 113926993, 338241895,
   666307205, 773529912, 1294757372, 1396182291,
   1695183700, 1986661051, 2177026350, 2456956037,
   2730485921, 2820302411, 3259730800, 3345764771,
   3516065817, 3600352804, 4094571909, 275423344,
   430227734, 506948616, 659060556, 883997877,
   958139571, 1322822218, 1537002063, 1747873779,
   1955562222, 2024104815, 2227730452, 2361852424,
   2428436474, 2756734187, 3204031479, 3329325298]

/-- The SHA-256 hash state (eight 32-bit words). -/
structure Sha8 where
  a : Nat
  b : Nat
  c : Nat
  d : Nat
  e : Nat
  f : Nat
  g : Nat
  h : Nat

/-- The SHA-256 initial hash value. -/
def shaH0 : Sha8 :=
  ⟨1779033703, 3144134277, 1013904242, 2773480762,
   1359893119, 2600822924, 528734635, 1541459225⟩

/-- Big-endian 32-bit word from four bytes. -/
def word4 (b1 b2 b3 b4 : Nat) : Nat := b1 * 16777216 + b2 * 65536 + b3 * 256 + b4

/-- The first 16 schedule words of a 64-byte chunk. -/
def chunkWords : List Nat → List Nat
  | b1 :: b2 :: b3 :: b4 :: rest => word4 b1 b2 b3 b4 :: chunkWords rest
  | _ => []

/-- σ₀. -/
def ssig0 (x : Nat) : Nat := (rotr 7 x) ^^^ (rotr 18 x) ^^^ (x >>> 3)

/-- σ₁. -/
def ssig1 (x : Nat) : Nat := (rotr 17 x) ^^^ (rotr 19 x) ^^^ (x >>> 10)

/-- Σ₀. -/
def bsig0 (x : Nat) : Nat := (rotr 2 x) ^^^ (rotr 13 x) ^^^ (rotr 22 x)

/-- Σ₁. -/
def bsig1 (x : Nat) : Nat := (rotr 6 x) ^^^ (rotr 11 x) ^^^ (rotr 25 x)

/-- Extend the 16 schedule words to 64. -/
def extendSched : Nat → List Nat → List Nat
  | 0, ws => ws
  | n + 1, ws =>
    let t := w32 (ssig1 (ws.getD (ws.length - 2) 0) + ws.getD (ws.length - 7) 0 +
      ssig0 (ws.getD (ws.length - 15) 0) + ws.getD (ws.length - 16) 0)
    extendSched n (ws ++ [t])

/-- One compression round. -/
def shaRound (st : Sha8) (kw : Nat × Nat) : Sha8 :=
  let ch := (st.e &&& st.f) ^^^ (notW st.e &&& st.g)
  let t1 := w32 (st.h + bsig1 st.e + ch + kw.1 + kw.2)
  let mj := (st.a &&& st.b) ^^^ (st.a &&& st.c) ^^^ (st.b &&& st.c)
  let t2 := w32 (bsig0 st.a + mj)
  ⟨w32 (t1 + t2), st.a, st.b, st.c, w32 (st.d + t1), st.e, st.f, st.g⟩

/-- Process one 64-byte chunk. -/
def shaChunk (st : Sha8) (chunk : List Nat) : Sha8 :=
  let ws := extendSched 48 (chunkWords chunk)
  let r := (ws.zip shaK).foldl shaRound st
  ⟨w32 (st.a + r.a), w32 (st.b + r.b), w32 (st.c + r.c), w32 (st.d + r.d),
   w32 (st.e + r.e), w32 (st.f + r.f), w32 (st.g + r.g), w32 (st.h + r.h)⟩

/-- Split into 64-byte chunks (fuelled by the list length). -/
def toChunks64 : Nat → List Nat → List (List Nat)
  | 0, _ => []
  | _, [] => []
  | fuel + 1, bs => bs.take 64 :: toChunks64 fuel (bs.drop 64)

/-- SHA-256 message padding: `0x80`, zeros to 56 mod 64, then the bit
length on eight big-endian bytes. -/
def shaPad (msg : List Nat) : List Nat :=
  let L := msg.length
  let lenBits := L * 8
  msg ++ 128 :: List.replicate ((64 - (L + 9) % 64) % 64) 0 ++
    [lenBits / 72057594037927936 % 256, lenBits / 281474976710656 % 256,
     lenBits / 1099511627776 % 256, lenBits / 4294967296 % 256,
     lenBits / 16777216 % 256, lenBits / 65536 % 256,
     lenBits / 256 % 256, lenBits % 256]

/-- Big-endian bytes of a 32-bit word. -/
def wordBytes (w : Nat) : List Nat :=
  [w / 16777216 % 256, w / 65536 % 256, w / 256 % 256, w % 256]

/-- `hashlib.sha256(msg).digest()`. -/
def sha256 (msg : List Nat) : List Nat :=
  let padded := shaPad msg
  let st := (toChunks64 padded.length padded).foldl shaChunk shaH0
  wordBytes st.a ++ wordBytes st.b ++ wordBytes st.c ++ wordBytes st.d ++
    wordBytes st.e ++ wordBytes st.f ++ wordBytes st.g ++ wordBytes st.h

/-- `VaultService._derive_key`: if the configured key decodes cleanly as
base64 to exactly 32 bytes it is returned verbatim (encoded); otherwise
the url-safe base64 encoding of its SHA-256 digest is returned. -/
def derive_key (key_string : Chars) : List Nat :=
  let kb := utf8Encode key_string
  match urlsafe_b64decode kb with
  | some decoded =>
    if decoded.length = 32 then kb else b64EncodeBytes (sha256 kb)
  | none => b64EncodeBytes (sha256 kb)

/-! ## The workflow engine (`WorkflowOrchestrator`), rollback phase

`instance.jobs` is the instance's job list in creation (id) order.  A
snapshot step is one entry of `template_snapshot["steps"]`. -/

/-- `WorkflowStatus`. -/
inductive WStatus
  | pending
  | running
  | completed
  | failed
  | cancelled
  | rollingBack
  | rolledBack
deriving DecidableEq

/-- One step of the template snapshot (the fields read by
`_trigger_rollback`). -/
structure SnapStep where
  order : Int
  action_name : Chars
  executor_type : Chars
  rollback_action : Option Chars
deriving DecidableEq

/-- A workflow instance (the fields used by the rollback phase). -/
structure WInstance where
  id : Nat
  jobs : List Job
  status : WStatus
  error_message : Option Chars
  completed_at : Option Nat
  snapshotSteps : List SnapStep
  rollback_on_failure : Bool
  device_ids : List Nat
  extra_vars : Option Chars

/-- Stable descending insertion by step order
(`sorted(steps, key=..., reverse=True)`). -/
def insertDesc (x : SnapStep) : List SnapStep → List SnapStep
  | [] => [x]
  | y :: ys => if y.order ≤ x.order then x :: y :: ys else y :: insertDesc x ys

/-- `sorted(steps, key=lambda s: s.get("order", 0), reverse=True)`. -/
def sortStepsDesc : List SnapStep → List SnapStep
  | [] => []
  | x :: xs => insertDesc x (sortStepsDesc xs)

/-- The step orders of the completed non-rollback jobs
(`completed_step_orders`). -/
def completedOrders (inst : WInstance) : List Int :=
  (inst.jobs.filter (fun j => j.status = JobStatus.completed && !j.is_rollback)).filterMap
    (fun j => j.step_order)

/-- The snapshot steps that get a rollback job, in creation order
(decreasing step order): completed and carrying a `rollback_action`. -/
def rollbackSteps (inst : WInstance) : List SnapStep :=
  (sortStepsDesc inst.snapshotSteps).filter
    (fun st => (completedOrders inst).contains st.order && st.rollback_action.isSome)

/-- The rollback job created for one snapshot step: PENDING, `is_rollback`,
step order negated, action taken from `rollback_action`. -/
def mkRollbackJob (inst : WInstance) (newId : Nat) (st : SnapStep) : Job :=
  { id := newId
    device_id := inst.device_ids.headD 0
    device_ids := if 1 < inst.device_ids.length then some inst.device_ids else none
    executor_type := st.executor_type
    action_name := st.rollback_action.getD []
    action_config := none
    extra_vars := inst.extra_vars
    status := JobStatus.pending
    started_at := none
    completed_at := none
    log_output := none
    progress := 0
    task_count := 0
    tasks_completed := 0
    error_category := none
    cancel_requested := false
    cancelled_at := none
    celery_task_id := none
    vault_secret_id := ((inst.jobs.filter
      (fun j => j.status = JobStatus.completed && !j.is_rollback)).head?).bind
      (fun j => j.vault_secret_id)
    workflow_instance_id := some inst.id
    step_order := some (-st.order)
    depends_on_job_ids := none
    is_rollback := true }

/-- `_trigger_rollback`: mark the instance ROLLING_BACK, create one
rollback job per completed step with a rollback action (in decreasing step
order, ids ascending from `nextId`), and if none were created fail the
instance with "Workflow failed, no rollback actions defined"; otherwise
the first rollback job is dispatched (no further persisted change). -/
def trigger_rollback (now nextId : Nat) (inst : WInstance) : WInstance :=
  let i1 := { inst with status := WStatus.rollingBack }
  let rbJobs := (rollbackSteps inst).enum.map (fun p => mkRollbackJob inst (nextId + p.1) p.2)
  let i2 := { i1 with jobs := i1.jobs ++ rbJobs }
  if rbJobs.isEmpty then
    { i2 with
      status := WStatus.failed
      completed_at := some now
      error_message := some "Workflow failed, no rollback actions defined".data }
  else i2

/-- `_handle_rollback_completion`: while rollback jobs are PENDING the
next one is dispatched (no persisted change); once none are pending the
instance is failed with "Rollback failed" if any rollback job FAILED, and
ROLLED_BACK otherwise. -/
def handle_rollback_completion (now : Nat) (inst : WInstance) : WInstance :=
  let rbs := inst.jobs.filter (fun j => j.is_rollback)
  if !(rbs.filter (fun j => j.status = JobStatus.pending)).isEmpty then inst
  else if !(rbs.filter (fun j => j.status = JobStatus.failed)).isEmpty then
    { inst with
      status := WStatus.failed
      completed_at := some now
      error_message := some "Rollback failed".data }
  else
    { inst with status := WStatus.rolledBack, completed_at := some now }

/-- The worker finishing the currently dispatched rollback job: the first
pending rollback job in creation order receives its terminal status. -/
def setFirstPendingRB (o : JobStatus) : List Job → List Job
  | [] => []
  | j :: js =>
    if j.is_rollback && j.status = JobStatus.pending then { j with status := o } :: js
    else j :: setFirstPendingRB o js

/-- The serialized rollback phase: each terminal outcome in turn is applied
to the dispatched (first pending) rollback job, then
`on_job_complete` runs `_handle_rollback_completion` (the instance is in
ROLLING_BACK while the phase is live). -/
def runRollbackPhase (now : Nat) : List JobStatus → WInstance → WInstance
  | [], i => i
  | o :: os, i =>
    if i.status = WStatus.rollingBack &&
        i.jobs.any (fun j => j.is_rollback && j.status = JobStatus.pending) then
      runRollbackPhase now os
        (handle_rollback_completion now { i with jobs := setFirstPendingRB o i.jobs })
    else i

/-! ## Workflow template validation (`backend/app/routes/workflows.py`) -/

/-- `WorkflowStepSchema` (pydantic). -/
structure StepSchema where
  order : Int
  action_name : Chars
  executor_type : Chars
  depends_on : List Int
  rollback_action : Option Chars
  extra_vars : Option Chars
deriving DecidableEq

/-- `WorkflowTemplateCreate` (pydantic). -/
structure TemplateCreate where
  name : Chars
  description : Option Chars
  steps : List StepSchema
deriving DecidableEq

/-- `WorkflowTemplateUpdate` (pydantic; all fields optional). -/
structure TemplateUpdate where
  name : Option Chars
  description : Option Chars
  steps : Option (List StepSchema)
deriving DecidableEq

/-- A stored `WorkflowTemplate` row. -/
structure WTemplate where
  tid : Nat
  name : Chars
  description : Option Chars
  steps : List StepSchema
deriving DecidableEq

/-- The pydantic field constraints of `WorkflowTemplateCreate`:
`name` 1–100 characters, at least one step, every step with `order ≥ 0`
and a nonempty `action_name`. -/
def pydanticCreateOk (d : TemplateCreate) : Bool :=
  1 ≤ d.name.length && d.name.length ≤ 100 && 1 ≤ d.steps.length &&
    d.steps.all (fun s => 0 ≤ s.order && 1 ≤ s.action_name.length)

/-- The handler's step validation (`create_template` lines 173–190 and
`update_template` lines 310–326): orders unique (by a length-of-set
comparison), then for every step each dependency must name an existing
order and be strictly lower; returns the first `ValidationError` message. -/
def validateStepList (steps : List StepSchema) : Option Chars :=
  let orders := steps.map (fun s => s.order)
  if orders.length ≠ orders.dedup.length then some "Step orders must be unique".data
  else
    steps.findSome? (fun s =>
      s.depends_on.findSome? (fun d =>
        if !orders.contains d then
          some ("Step depends on non-existent step".data)
        else if s.order ≤ d then
          some ("Step cannot depend on step with not lower order".data)
        else none))

/-- `create_template`: pydantic validation, step validation, then the
duplicate-name check, then the insert.  A `ValidationError` leaves the
store unchanged (`DatabaseSession` rolls back). -/
def create_template (store : List WTemplate) (nextId : Nat) (d : TemplateCreate) :
    Option Chars × List WTemplate :=
  if !pydanticCreateOk d then (some "pydantic validation error".data, store)
  else
    match validateStepList d.steps with
    | some m => (some m, store)
    | none =>
      if store.any (fun t => t.name = d.name) then
        (some "Template with this name already exists".data, store)
      else (none, store ++ [⟨nextId, d.name, d.description, d.steps⟩])

/-- The pydantic field constraints of `WorkflowTemplateUpdate`. -/
def pydanticUpdateOk (d : TemplateUpdate) : Bool :=
  (match d.name with
   | some n => 1 ≤ n.length && n.length ≤ 100
   | none => true) &&
  (match d.steps with
   | some ss => 1 ≤ ss.length && ss.all (fun s => 0 ≤ s.order && 1 ≤ s.action_name.length)
   | none => true)

/-- `update_template` applied to the stored row with id `tid`: pydantic
validation, name-conflict check, assignment of name/description, step
validation, assignment of steps, commit.  Any raised error rolls the
transaction back, leaving the store unchanged. -/
def update_template (store : List WTemplate) (tid : Nat) (d : TemplateUpdate) :
    Option Chars × List WTemplate :=
  if !pydanticUpdateOk d then (some "pydantic validation error".data, store)
  else
    match store.find? (fun t => t.tid = tid) with
    | none => (some "WorkflowTemplate not found".data, store)
    | some t =>
      if (match d.name with
          | some n => store.any (fun u => u.name = n && u.tid ≠ tid)
          | none => false) then
        (some "Template with this name already exists".data, store)
      else
        let t1 := { t with name := d.name.getD t.name }
        let t2 := { t1 with description := if d.description.isSome then d.description else t1.description }
        match d.steps with
        | some ss =>
          match validateStepList ss with
          | some m => (some m, store)
          | none =>
            (none, store.map (fun u => if u.tid = tid then { t2 with steps := ss } else u))
        | none => (none, store.map (fun u => if u.tid = tid then t2 else u))

/-- The specification-side write-time invariant on steps: at least one
step, unique orders, and every dependency names an existing strictly lower
order. -/
def StepsValid (steps : List StepSchema) : Prop :=
  steps ≠ [] ∧ (steps.map (fun s => s.order)).Nodup ∧
    ∀ s ∈ steps, ∀ d ∈ s.depends_on, d ∈ steps.map (fun s => s.order) ∧ d < s.order

instance (steps : List StepSchema) : Decidable (StepsValid steps) := by
  unfold StepsValid; infer_instance

/-! ## Re-run (`rerun_job`, `backend/app/routes/automation.py`) -/

/-- The ambient facts `rerun_job` checks before resetting the job: the
job's device row and its IP, the executor registry lookup, the task queue,
and the Celery task id returned by `execute` (if any). -/
structure RerunCtx where
  deviceExists : Bool
  deviceHasIp : Bool
  executorKnown : Bool
  queueOk : Bool
  newTaskId : Option Chars

/-- The outcome of `rerun_job`: an error response with the job row left as
the handler leaves it, or the re-queued job. -/
inductive RerunResult
  | err (msg : Chars) (job : Job)
  | ok (job : Job)
deriving DecidableEq

/-- `rerun_job`: refuse RUNNING/PENDING jobs, check device/executor, reset
the execution state (status PENDING, progress 0, counters 0, timestamps,
log, error category, cancellation flag and Celery id cleared), commit,
re-enqueue; on queue failure the job is marked FAILED.  Identity fields
are not touched. -/
def rerun_job (ctx : RerunCtx) (job : Job) : RerunResult :=
  if job.status = JobStatus.running || job.status = JobStatus.pending then
    .err "Cannot re-run job with this status".data job
  else if !ctx.deviceExists then .err "Device not found".data job
  else if !ctx.deviceHasIp then .err "Device must have an IP address for automation".data job
  else if !ctx.executorKnown then .err "Unknown executor type".data job
  else
    let j := { job with
      status := JobStatus.pending
      started_at := none
      completed_at := none
      cancelled_at := none
      log_output := none
      progress := 0
      tasks_completed := 0
      task_count := 0
      error_category := none
      cancel_requested := false
      celery_task_id := none }
    if !ctx.queueOk then
      .err "Task queue unavailable".data
        { j with status := JobStatus.failed,
                 log_output := some "Task queue (Celery) is not available.".data }
    else
      match ctx.newTaskId with
      | some tid => .ok { j with celery_task_id := some tid }
      | none => .ok j

/-! ## Concrete records used by witnesses and counterexamples -/

/-- A freshly created job as the API handler persists it
(`status=PENDING`, progress/counters at their column defaults). -/
def sampleJob : Job :=
  { id := 7
    device_id := 1
    device_ids := none
    executor_type := "ansible".data
    action_name := "ping".data
    action_config := none
    extra_vars := none
    status := JobStatus.pending
    started_at := none
    completed_at := none
    log_output := none
    progress := 0
    task_count := 0
    tasks_completed := 0
    error_category := none
    cancel_requested := false
    cancelled_at := none
    celery_task_id := none
    vault_secret_id := none
    workflow_instance_id := none
    step_order := none
    depends_on_job_ids := none
    is_rollback := false }

/-- A job in the terminal state COMPLETED (with `cancel_requested` off, as
the worker leaves it after a successful run). -/
def doneJob : Job :=
  { sampleJob with
    status := JobStatus.completed
    progress := 100
    started_at := some 1
    completed_at := some 2
    log_output := some "ok".data }

/-! ## Lemmas about the stream loop -/

/-- The redacted, stripped form of a raw line. -/
def redLine (l : Chars) : Chars := redact_sensitive_data (rstrip l)

theorem streamStep_not_cancelled (flagAt : Nat → Bool) (acc : StreamAcc) (line : Chars)
    (hacc : acc.cancelled = false) :
    (streamStep flagAt acc line).outputLines = acc.outputLines ++ [redLine line] ∧
    (streamStep flagAt acc line).published = acc.published ++ [redLine line] ∧
    (streamStep flagAt acc line).cancelled =
      ((acc.lineCount + 1) % CANCELLATION_CHECK_INTERVAL = 0 && flagAt (acc.lineCount + 1)) := by
  simp [streamStep, hacc, redLine]

/-- While no cancellation is ever signalled, the loop maps every line to
its redacted form, both into the output buffer and onto the channel. -/
theorem streamLoop_no_cancel_aux (flagAt : Nat → Bool) (h : ∀ n, flagAt n = false) :
    ∀ (lines : List Chars) (acc : StreamAcc), acc.cancelled = false →
      (lines.foldl (streamStep flagAt) acc).cancelled = false ∧
      (lines.foldl (streamStep flagAt) acc).outputLines =
        acc.outputLines ++ lines.map redLine ∧
      (lines.foldl (streamStep flagAt) acc).published =
        acc.published ++ lines.map redLine := by
  intro lines
  induction lines with
  | nil => intro acc hacc; simp [hacc]
  | cons l ls ih =>
    intro acc hacc
    have hstep := streamStep_not_cancelled flagAt acc l hacc
    have hc : (streamStep flagAt acc l).cancelled = false := by
      rw [hstep.2.2, h]; simp
    have ihx := ih (streamStep flagAt acc l) hc
    refine ⟨by simpa using ihx.1, ?_, ?_⟩
    · rw [List.foldl_cons, ihx.2.1, hstep.1]
      simp
    · rw [List.foldl_cons, ihx.2.2, hstep.2.1]
      simp

theorem streamLoop_no_cancel (flagAt : Nat → Bool) (h : ∀ n, flagAt n = false)
    (lines : List Chars) (job : Job) :
    (streamLoop flagAt lines job).cancelled = false ∧
    (streamLoop flagAt lines job).outputLines = lines.map redLine ∧
    (streamLoop flagAt lines job).published = lines.map redLine := by
  have := streamLoop_no_cancel_aux flagAt h lines (initAcc job) rfl
  simpa [streamLoop, initAcc] using this

/-- The last commit of the subprocess phase, when the loop ran without a
cancellation signal and the subprocess exited: its log is the newline-join
of the per-line redacted output. -/
theorem streamCommits_log (inp : WorkerInput) (j2 : Job) (rc : Int)
    (hout : inp.outcome = RunOutcome.exited rc)
    (hflag : ∀ n, inp.flagAt n = false) :
    ∃ jfin, (streamCommits inp j2).getLast? = some jfin ∧
      jfin.log_output = some (joinNL (inp.lines.map redLine)) := by
  obtain ⟨h1, h2, h3⟩ := streamLoop_no_cancel inp.flagAt hflag inp.lines j2
  rw [streamCommits]
  simp only [h1, Bool.false_eq_true, if_false, hout, h2]
  by_cases hrc : rc = 0 <;> simp [hrc, List.getLast?_concat]

theorem claimStep_snd (now : Nat) (taskId : Chars) (job : Job) :
    (claimStep now taskId job).2 = !job.cancel_requested := by
  by_cases h : job.cancel_requested <;> simp [claimStep, h]

/-- The commit list of a delivery that passes the claim check and the
playbook validation. -/
theorem run_commits_eq (inp : WorkerInput) (job0 : Job)
    (hcr : job0.cancel_requested = false)
    (hval : inp.validationError = none) :
    run_ansible_playbook_commits inp job0 =
      [(claimStep inp.now inp.taskId job0).1,
       { (claimStep inp.now inp.taskId job0).1 with task_count := max inp.rawTaskCount 1 }] ++
        streamCommits inp
          { (claimStep inp.now inp.taskId job0).1 with task_count := max inp.rawTaskCount 1 } := by
  rw [run_ansible_playbook_commits]
  simp only [claimStep_snd, hcr, hval, Bool.not_false, Bool.not_true, Bool.false_eq_true,
    if_false, if_true]

theorem finalJob_log (inp : WorkerInput) (job0 : Job) (rc : Int)
    (hcr : job0.cancel_requested = false)
    (hval : inp.validationError = none)
    (hout : inp.outcome = RunOutcome.exited rc)
    (hflag : ∀ n, inp.flagAt n = false) :
    (finalJob inp job0).log_output = some (joinNL (inp.lines.map redLine)) := by
  obtain ⟨jfin, hlast, hlog⟩ := streamCommits_log inp
    { (claimStep inp.now inp.taskId job0).1 with task_count := max inp.rawTaskCount 1 }
    rc hout hflag
  have hne : streamCommits inp
      { (claimStep inp.now inp.taskId job0).1 with task_count := max inp.rawTaskCount 1 } ≠ [] := by
    intro hemp
    rw [hemp] at hlast
    simp at hlast
  rw [finalJob, run_commits_eq inp job0 hcr hval,
    List.getLast?_append_of_ne_nil _ hne, hlast]
  simpa using hlog

/-! ## Redaction leaves secret-free text unchanged -/

theorem litCI_cons_ne {k c : Char} (ks cs : Chars) (h : c.toLower ≠ k.toLower) :
    litCI (k :: ks) (c :: cs) = none := by
  simp [litCI, h]

theorem litCI_x (k : Chars) (cs : Chars) (h1 : k ≠ [])
    (h2 : k.head?.map Char.toLower ≠ some ('x'.toLower)) :
    litCI k ('x' :: cs) = none := by
  cases k with
  | nil => exact absurd rfl h1
  | cons k0 ks =>
    refine litCI_cons_ne ks cs fun hc => ?_
    exact h2 (by simp [hc])

theorem kwLit_x (k : String) (cs : Chars) (h1 : k.data ≠ [])
    (h2 : k.data.head?.map Char.toLower ≠ some ('x'.toLower)) :
    kwLit k ('x' :: cs) = none :=
  litCI_x k.data cs h1 h2

theorem litCS_cons_ne {k c : Char} (ks cs : Chars) (h : c ≠ k) :
    litCS (k :: ks) (c :: cs) = none := by
  simp [litCS, h]

theorem firstKw_cons_none {m : Chars → Option (Chars × Chars)}
    {ms : List (Chars → Option (Chars × Chars))} {s : Chars} (h : m s = none) :
    firstKw (m :: ms) s = firstKw ms s := by
  simp [firstKw, h]

theorem kwSep_head_none {pre post : String} {s : Chars}
    (h : litCI pre.data s = none) : kwSep pre post s = none := by
  simp [kwSep, h]

theorem patKV_none {kws : List (Chars → Option (Chars × Chars))} {q : Bool}
    {valC : Char → Bool} {s : Chars} (h : firstKw kws s = none) :
    patKV kws q valC s = none := by
  simp [patKV, matchKV, h]

/-- None of the six redaction patterns can match at a position holding the
letter `x`. -/
theorem pat1_x (cs : Chars) : pat1 ('x' :: cs) = none := by
  refine patKV_none ?_
  rw [firstKw_cons_none (kwLit_x _ _ (by decide) (by decide)),
    firstKw_cons_none (kwLit_x _ _ (by decide) (by decide)),
    firstKw_cons_none (kwLit_x _ _ (by decide) (by decide))]
  rfl

theorem pat2_x (cs : Chars) : pat2 ('x' :: cs) = none := by
  refine patKV_none ?_
  rw [firstKw_cons_none (kwLit_x _ _ (by decide) (by decide)),
    firstKw_cons_none (kwLit_x _ _ (by decide) (by decide)),
    firstKw_cons_none (kwLit_x _ _ (by decide) (by decide))]
  rfl

theorem pat3_x (cs : Chars) : pat3 ('x' :: cs) = none := by
  refine patKV_none ?_
  rw [firstKw_cons_none (kwSep_head_none (litCI_x _ _ (by decide) (by decide))),
    firstKw_cons_none (kwSep_head_none (litCI_x _ _ (by decide) (by decide))),
    firstKw_cons_none (kwLit_x _ _ (by decide) (by decide)),
    firstKw_cons_none (kwLit_x _ _ (by decide) (by decide))]
  rfl

theorem pat4_x (cs : Chars) : pat4 ('x' :: cs) = none := by
  refine patKV_none ?_
  rw [firstKw_cons_none (kwLit_x _ _ (by decide) (by decide)),
    firstKw_cons_none (kwLit_x _ _ (by decide) (by decide))]
  rfl

theorem pat5_x (cs : Chars) : pat5 ('x' :: cs) = none := by
  refine patKV_none ?_
  rw [firstKw_cons_none (kwLit_x _ _ (by decide) (by decide)),
    firstKw_cons_none (kwSep_head_none (litCI_x _ _ (by decide) (by decide)))]
  rfl

theorem pat6_x (cs : Chars) : pat6 ('x' :: cs) = none := by
  rw [pat6, litCS_cons_ne _ _ (by decide)]

/-- The `re.sub` scan leaves a text unchanged when the pattern matches at
no position of it. -/
theorem subF_all_x {m : Chars → Option (Chars × Chars)}
    (hx : ∀ cs : Chars, m ('x' :: cs) = none) :
    ∀ (fuel : Nat) (s : Chars), (∀ c ∈ s, c = 'x') → subF m fuel s = s := by
  intro fuel
  induction fuel with
  | zero => intro s _; rfl
  | succ n ih =>
    intro s hs
    cases s with
    | nil => rfl
    | cons c cs =>
      have hc : c = 'x' := hs c (by simp)
      subst hc
      rw [subF, hx cs, ih cs (fun c hcm => hs c (by simp [hcm]))]

theorem reSub_all_x {m : Chars → Option (Chars × Chars)}
    (hx : ∀ cs : Chars, m ('x' :: cs) = none)
    (s : Chars) (hs : ∀ c ∈ s, c = 'x') : reSub m s = s :=
  subF_all_x hx s.length s hs

/-- An all-`x` text of at most 100 000 characters passes
`_redact_sensitive_data` unchanged. -/
theorem redact_all_x (s : Chars) (hs : ∀ c ∈ s, c = 'x')
    (hlen : s.length ≤ MAX_LOG_OUTPUT_SIZE) :
    redact_sensitive_data s = s := by
  rw [redact_sensitive_data, reSub_all_x pat1_x s hs, reSub_all_x pat2_x s hs,
    reSub_all_x pat3_x s hs, reSub_all_x pat4_x s hs, reSub_all_x pat5_x s hs,
    reSub_all_x pat6_x s hs, if_neg (by omega)]

theorem rstrip_all_x (s : Chars) (hs : ∀ c ∈ s, c = 'x') : rstrip s = s := by
  rw [rstrip]
  have : s.reverse.dropWhile isSpaceC = s.reverse := by
    cases hr : s.reverse with
    | nil => rfl
    | cons c cs =>
      have hc : c = 'x' := by
        have : c ∈ s.reverse := by rw [hr]; simp
        exact hs c (List.mem_reverse.mp this)
      subst hc
      rw [List.dropWhile_cons, show isSpaceC 'x' = false from rfl]
      simp
  rw [this, List.reverse_reverse]

/-! ## C1 — the persisted log can exceed the 100 KB bound -/

/-- A 60 000-character output line with no sensitive content. -/
def xline : Chars := List.replicate 60000 'x'

/-- A run whose subprocess prints 120 KB of innocuous output on two lines
and exits 0, with no cancellation. -/
def c1Input : WorkerInput :=
  { lines := [xline, xline]
    flagAt := fun _ => false
    outcome := .exited 0
    rawTaskCount := 1
    validationError := none
    now := 4
    taskId := "t1".data }

/-- C1: the 100 KB truncation lives inside `_redact_sensitive_data` and is
applied per line, but the persisted `log_output` is the unbounded
`"\n".join(output_lines)`: two 60 000-character lines survive redaction
unchanged and the worker persists 120 001 characters, exceeding the
claimed bound of 100 000 plus the 47-character truncation marker.  This
contradicts the stated purpose of `MAX_LOG_OUTPUT_SIZE` ("Maximum log
output size (characters) to store"). -/
theorem xline_len : xline.length = 60000 := by
  rw [show xline = List.replicate 60000 'x' from rfl, List.length_replicate]

theorem c1_log_bound_violated :
    ∃ L, (finalJob c1Input sampleJob).log_output = some L ∧
      L.length = 120001 ∧
      MAX_LOG_OUTPUT_SIZE + truncMarker.length < L.length := by
  have hx : ∀ c ∈ xline, c = 'x' := fun c hc => List.eq_of_mem_replicate hc
  have hred : redLine xline = xline := by
    rw [redLine, rstrip_all_x xline hx,
      redact_all_x xline hx (by rw [xline_len]; decide)]
  have hjoin : (joinNL (List.map redLine [xline, xline])).length = 120001 := by
    rw [List.map_cons, List.map_cons, List.map_nil, hred]
    show (xline ++ '\n' :: joinNL [xline]).length = 120001
    rw [show joinNL [xline] = xline from rfl, List.length_append, List.length_cons,
      xline_len]
  have hlog : (finalJob c1Input sampleJob).log_output =
      some (joinNL (List.map redLine [xline, xline])) :=
    finalJob_log c1Input sampleJob 0 rfl rfl rfl (fun _ => rfl)
  refine ⟨_, hlog, hjoin, ?_⟩
  rw [show truncMarker.length = 47 from rfl, hjoin]
  decide

/-! ## C2 — redaction of secrets in the persisted log and on the channel -/

/-- The secret-bearing line the spec's scenario injects. -/
def scenarioLine : Chars := "ansible_password=s3cret-value".data

/-- Its redacted form. -/
def scenarioLog : Chars := "ansible_password=***REDACTED***".data

/-- A run whose subprocess prints exactly the scenario line. -/
def scenarioInput : WorkerInput :=
  { lines := [scenarioLine]
    flagAt := fun _ => false
    outcome := .exited 0
    rawTaskCount := 1
    validationError := none
    now := 3
    taskId := "t".data }

/-- C2 counterexample: the persisted log of the spec's own redaction
scenario — fully redacted, secret removed — still CONTAINS substrings
matching redaction patterns 1 and 2 (namely `ansible_password=***REDACTED***`
itself, whose value part `***REDACTED***` the patterns match), so "no
persisted log_output contains any substring matching the redaction
patterns" is false as stated. -/
theorem c2_totality_counterexample :
    (finalJob scenarioInput sampleJob).log_output = some scenarioLog ∧
    hasMatch pat2 scenarioLog = true ∧
    hasMatch pat1 scenarioLog = true := by decide

/-- C2 (amended): with no cancellation signalled, every payload published
on the job's channel is exactly the redacted form of its line and the
output buffer holds exactly those redacted lines; in the scenario run the
persisted log contains `ansible_password=***REDACTED***`, does not contain
the literal secret, and is a fixed point of the redaction (re-applying the
patterns changes nothing) — redaction is total up to the `***REDACTED***`
markers themselves, which still match the patterns. -/
theorem c2_redaction (flagAt : Nat → Bool) (lines : List Chars) (job : Job)
    (h : ∀ n, flagAt n = false) :
    ((streamLoop flagAt lines job).published =
        lines.map (fun l => redact_sensitive_data (rstrip l)) ∧
     (streamLoop flagAt lines job).outputLines =
        lines.map (fun l => redact_sensitive_data (rstrip l))) ∧
    ((finalJob scenarioInput sampleJob).log_output = some scenarioLog ∧
     containsSub "ansible_password=***REDACTED***".data scenarioLog = true ∧
     containsSub "s3cret-value".data scenarioLog = false ∧
     redact_sensitive_data scenarioLog = scenarioLog) := by
  obtain ⟨h1, h2, h3⟩ := streamLoop_no_cancel flagAt h lines job
  exact ⟨⟨h3, h2⟩, by decide⟩

/-- Witness for C2 at the scenario input. -/
theorem c2_redaction_witness :
    (streamLoop (fun _ => false) [scenarioLine] sampleJob).published =
      [scenarioLine].map (fun l => redact_sensitive_data (rstrip l)) ∧
    (finalJob scenarioInput sampleJob).log_output = some scenarioLog :=
  ⟨(c2_redaction (fun _ => false) [scenarioLine] sampleJob (fun _ => rfl)).1.1,
   (c2_redaction (fun _ => false) [scenarioLine] sampleJob (fun _ => rfl)).2.1⟩

/-! ## C4 — the claim step is not idempotent on terminal jobs -/

/-- C4: the spec requires a second delivery of a queue message for a
terminal job to be a no-op, but `run_ansible_playbook` checks only
`cancel_requested` on claim: redelivered for a COMPLETED job it mutates
the record back to RUNNING and proceeds to spawn the subprocess again, so
the job does leave its terminal state. -/
theorem c4_terminal_claim_not_noop :
    (claimStep 5 "tid2".data doneJob).2 = true ∧
    (claimStep 5 "tid2".data doneJob).1.status = JobStatus.running ∧
    (claimStep 5 "tid2".data doneJob).1 ≠ doneJob := by decide

/-! ## C3 — vault round-trip and tamper rejection -/

/-- C3: decryption inverts encryption under the same key; any bytes that
are not an encryption under the key in use — tampered tokens, or tokens
produced under a different key — are rejected with the
`Failed to decrypt secret` error, never with partial output. -/
theorem c3_vault_round_trip :
    (∀ (key : Nat) (p : Chars), vaultDecrypt key (vaultEncrypt key p) = Except.ok p) ∧
    (∀ (key : Nat) (c : FernetToken), (∀ p, c ≠ vaultEncrypt key p) →
      vaultDecrypt key c = Except.error "Failed to decrypt secret".data) ∧
    (∀ (k1 k2 : Nat) (p : Chars), k1 ≠ k2 →
      vaultDecrypt k2 (vaultEncrypt k1 p) = Except.error "Failed to decrypt secret".data) := by
  refine ⟨fun key p => ?_, fun key c h => ?_, fun k1 k2 p h => ?_⟩
  · simp [vaultDecrypt, vaultEncrypt, fernetEncrypt, fernetDecrypt]
  · simp only [vaultDecrypt, fernetDecrypt]
    have hk : c.key ≠ key := by
      intro hk
      exact h c.payload (by cases c; cases hk; rfl)
    simp [hk]
  · simp [vaultDecrypt, vaultEncrypt, fernetEncrypt, fernetDecrypt, h]

/-- Witness for C3 at concrete inputs. -/
theorem c3_vault_round_trip_witness :
    vaultDecrypt 1 (vaultEncrypt 1 "pw".data) = Except.ok "pw".data ∧
    vaultDecrypt 1 ⟨2, "pw".data⟩ = Except.error "Failed to decrypt secret".data ∧
    vaultDecrypt 2 (vaultEncrypt 1 "pw".data) = Except.error "Failed to decrypt secret".data :=
  ⟨c3_vault_round_trip.1 1 "pw".data,
   c3_vault_round_trip.2.1 1 ⟨2, "pw".data⟩ (by
     intro p hp
     simp [vaultEncrypt, fernetEncrypt, FernetToken.mk.injEq] at hp),
   c3_vault_round_trip.2.2 1 2 "pw".data (by decide)⟩

/-! ## C10 — re-run resets execution state and preserves identity -/

/-- C10: `rerun_job` refuses RUNNING and PENDING jobs with a validation
error and leaves the record unchanged; on a terminal job (with the device
present and addressable, the executor known and the queue up) it resets
exactly the execution-state fields to their initial values and leaves the
identity fields untouched. -/
theorem c10_rerun_resets (ctx : RerunCtx) (job : Job)
    (hdev : ctx.deviceExists = true) (hip : ctx.deviceHasIp = true)
    (hex : ctx.executorKnown = true) (hq : ctx.queueOk = true) :
    ((job.status = JobStatus.running ∨ job.status = JobStatus.pending) →
      rerun_job ctx job = .err "Cannot re-run job with this status".data job) ∧
    (job.status ≠ JobStatus.running → job.status ≠ JobStatus.pending →
      ∃ j, rerun_job ctx job = .ok j ∧
        j.status = JobStatus.pending ∧ j.progress = 0 ∧
        j.tasks_completed = 0 ∧ j.task_count = 0 ∧
        j.started_at = none ∧ j.completed_at = none ∧ j.cancelled_at = none ∧
        j.log_output = none ∧ j.error_category = none ∧
        j.cancel_requested = false ∧ j.celery_task_id = ctx.newTaskId ∧
        j.id = job.id ∧ j.device_id = job.device_id ∧ j.device_ids = job.device_ids ∧
        j.executor_type = job.executor_type ∧ j.action_name = job.action_name ∧
        j.action_config = job.action_config ∧ j.extra_vars = job.extra_vars ∧
        j.vault_secret_id = job.vault_secret_id) := by
  constructor
  · intro h
    have hb : (job.status = JobStatus.running || job.status = JobStatus.pending) = true := by
      rcases h with h | h <;> simp [h]
    simp [rerun_job, hb]
  · intro h1 h2
    have hb : (job.status = JobStatus.running || job.status = JobStatus.pending) = false := by
      simp [h1, h2]
    rw [rerun_job]
    simp only [hb, Bool.false_eq_true, if_false, hdev, hip, hex, hq, Bool.not_true,
      Bool.false_eq_true, if_false]
    cases hni : ctx.newTaskId with
    | some tid => exact ⟨_, rfl, by simp [hni]⟩
    | none => exact ⟨_, rfl, by simp [hni]⟩

/-- Witness for C10 at a concrete terminal job. -/
theorem c10_rerun_resets_witness :
    ∃ j, rerun_job ⟨true, true, true, true, some "t9".data⟩ doneJob = .ok j ∧
        j.status = JobStatus.pending ∧ j.progress = 0 ∧
        j.tasks_completed = 0 ∧ j.task_count = 0 ∧
        j.started_at = none ∧ j.completed_at = none ∧ j.cancelled_at = none ∧
        j.log_output = none ∧ j.error_category = none ∧
        j.cancel_requested = false ∧
        j.celery_task_id = (⟨true, true, true, true, some "t9".data⟩ : RerunCtx).newTaskId ∧
        j.id = doneJob.id ∧ j.device_id = doneJob.device_id ∧
        j.device_ids = doneJob.device_ids ∧
        j.executor_type = doneJob.executor_type ∧ j.action_name = doneJob.action_name ∧
        j.action_config = doneJob.action_config ∧ j.extra_vars = doneJob.extra_vars ∧
        j.vault_secret_id = doneJob.vault_secret_id :=
  (c10_rerun_resets ⟨true, true, true, true, some "t9".data⟩ doneJob rfl rfl rfl rfl).2
    (by decide) (by decide)

/-! ## C6 — progress bounds -/

/-- The invariant of the claim: progress within bounds, and at 100 exactly
on COMPLETED. -/
def JobInv (j : Job) : Prop :=
  j.progress ≤ 100 ∧ (j.progress = 100 ↔ j.status = JobStatus.completed)

instance (j : Job) : Decidable (JobInv j) := by
  unfold JobInv; infer_instance

/-- A job that is RUNNING with progress capped at 99 satisfies the
invariant. -/
theorem JobInv_of_le99 (j : Job) (h : j.progress ≤ 99)
    (hs : j.status ≠ JobStatus.completed) : JobInv j := by
  refine ⟨by omega, ?_, ?_⟩
  · intro hp; omega
  · intro hc; exact absurd hc hs

/-- The running-phase invariant carried through the stream loop. -/
def accInv (acc : StreamAcc) : Prop :=
  acc.job.status = JobStatus.running ∧ acc.job.progress ≤ 99 ∧
    ∀ c ∈ acc.commits, c.status = JobStatus.running ∧ c.progress ≤ 99

theorem streamStep_inv (flagAt : Nat → Bool) (acc : StreamAcc) (line : Chars)
    (h : accInv acc) : accInv (streamStep flagAt acc line) := by
  obtain ⟨h1, h2, h3⟩ := h
  by_cases hc : acc.cancelled = true
  · rw [streamStep, if_pos hc]; exact ⟨h1, h2, h3⟩
  · rw [streamStep, if_neg hc]
    by_cases ht : taskLineMatch line = true <;>
      by_cases htc : 0 < acc.job.task_count <;>
        by_cases h3d : (acc.job.tasks_completed + 1) % 3 = 0 <;>
          simp only [accInv, ht, htc, h3d, if_pos, if_neg, if_true, if_false,
            Bool.false_eq_true, List.mem_append, List.mem_singleton] <;>
          refine ⟨by simpa using h1, ?_, ?_⟩ <;>
          try exact h2
    all_goals try
      exact fun c hc => hc.elim (fun hm => h3 c hm)
        (fun hm => by subst hm; exact ⟨by simpa using h1, by simp [Nat.min_le_right]⟩)
    all_goals try exact fun c hc => h3 c hc
    all_goals simp [Nat.min_le_right]

theorem streamLoop_inv (flagAt : Nat → Bool) (lines : List Chars) :
    ∀ acc : StreamAcc, accInv acc → accInv (lines.foldl (streamStep flagAt) acc) := by
  induction lines with
  | nil => intro acc h; exact h
  | cons l ls ih =>
    intro acc h
    exact ih (streamStep flagAt acc l) (streamStep_inv flagAt acc l h)

/-- C6: every committed job value of a worker delivery keeps
`0 ≤ progress ≤ 100` and reaches `progress = 100` exactly when it is
marked COMPLETED: during the run progress is capped at 99 and it is set
to 100 exactly in the commit that marks the job COMPLETED after exit 0. -/
theorem c6_progress_bounds (inp : WorkerInput) (job0 : Job)
    (hst : job0.status = JobStatus.pending)
    (hp : job0.progress ≤ 99) :
    ∀ s ∈ run_ansible_playbook_commits inp job0,
      (0 ≤ s.progress ∧ s.progress ≤ 100) ∧
      (s.progress = 100 ↔ s.status = JobStatus.completed) := by
  intro s hs
  suffices h : JobInv s by exact ⟨⟨Nat.zero_le _, h.1⟩, h.2⟩
  by_cases hcr : job0.cancel_requested = true
  · rw [run_ansible_playbook_commits] at hs
    simp only [claimStep_snd, hcr, Bool.not_true, Bool.not_false, if_true] at hs
    rw [claimStep, if_pos hcr] at hs
    rw [List.mem_singleton] at hs
    subst hs
    exact JobInv_of_le99 _ (by simpa using hp) (by simp)
  · rw [run_ansible_playbook_commits] at hs
    simp only [claimStep_snd, hcr, Bool.not_false, Bool.not_true, Bool.false_eq_true,
      if_false] at hs
    rw [claimStep, if_neg hcr] at hs
    set j1 : Job := { job0 with
      status := JobStatus.running
      started_at := some inp.now
      celery_task_id := some inp.taskId } with hj1
    have hj1p : j1.progress ≤ 99 := by simpa [hj1] using hp
    have hj1s : j1.status = JobStatus.running := by simp [hj1]
    cases hval : inp.validationError with
    | some msg =>
      rw [hval] at hs
      simp only [List.mem_cons, List.mem_singleton, List.not_mem_nil, or_false] at hs
      rcases hs with hs | hs
      · subst hs; exact JobInv_of_le99 _ hj1p (by simp [hj1])
      · subst hs
        exact JobInv_of_le99 _ (by simpa [validationFailJob] using hj1p)
          (by simp [validationFailJob])
    | none =>
      rw [hval] at hs
      simp only [List.cons_append, List.nil_append, List.mem_cons] at hs
      set j2 : Job := { j1 with task_count := max inp.rawTaskCount 1 } with hj2
      rcases hs with hs | hs | hs
      · subst hs; exact JobInv_of_le99 _ hj1p (by simp [hj1])
      · subst hs
        exact JobInv_of_le99 _ (by simpa [hj2] using hj1p) (by simp [hj2, hj1])
      · -- a commit of the subprocess phase
        have hacc : accInv (streamLoop inp.flagAt inp.lines j2) := by
          refine streamLoop_inv inp.flagAt inp.lines (initAcc j2) ?_
          refine ⟨by simpa [initAcc, hj2] using hj1s, by simpa [initAcc, hj2] using hj1p,
            by simp [initAcc]⟩
        obtain ⟨ha1, ha2, ha3⟩ := hacc
        rw [streamCommits] at hs
        set acc := streamLoop inp.flagAt inp.lines j2 with haccdef
        by_cases hcan : acc.cancelled = true
        · rw [if_pos hcan] at hs
          rw [List.mem_append, List.mem_singleton] at hs
          rcases hs with hs | hs
          · have := ha3 s hs; exact JobInv_of_le99 _ this.2 (by rw [this.1]; simp)
          · subst hs
            exact JobInv_of_le99 _ (by simpa using ha2) (by simp)
        · rw [if_neg hcan] at hs
          cases hout : inp.outcome with
          | exited rc =>
            rw [hout] at hs
            by_cases hrc : rc = 0
            · simp only [hrc, if_pos, if_true] at hs
              rw [List.mem_append, List.mem_singleton] at hs
              rcases hs with hs | hs
              · have := ha3 s hs; exact JobInv_of_le99 _ this.2 (by rw [this.1]; simp)
              · subst hs
                exact ⟨by simp, by simp⟩
            · simp only [hrc, if_neg, if_false, Bool.false_eq_true] at hs
              rw [List.mem_append, List.mem_singleton] at hs
              rcases hs with hs | hs
              · have := ha3 s hs; exact JobInv_of_le99 _ this.2 (by rw [this.1]; simp)
              · subst hs
                exact JobInv_of_le99 _ (by simpa using ha2) (by simp)
          | timedOut =>
            rw [hout] at hs
            rw [List.mem_append, List.mem_singleton] at hs
            rcases hs with hs | hs
            · have := ha3 s hs; exact JobInv_of_le99 _ this.2 (by rw [this.1]; simp)
            · subst hs
              exact JobInv_of_le99 _ (by simpa using ha2) (by simp)
          | softLimit =>
            rw [hout] at hs
            rw [List.mem_append, List.mem_singleton] at hs
            rcases hs with hs | hs
            · have := ha3 s hs; exact JobInv_of_le99 _ this.2 (by rw [this.1]; simp)
            · subst hs
              exact JobInv_of_le99 _ (by simpa using ha2) (by simp)

/-- A run with TASK lines, used by the C6 witness. -/
def c6Input : WorkerInput :=
  { lines := ["TASK [one]".data, "ok: [h]".data, "TASK [two]".data, "TASK [three]".data]
    flagAt := fun _ => false
    outcome := .exited 0
    rawTaskCount := 2
    validationError := none
    now := 9
    taskId := "t6".data }

/-- Witness for C6 at a concrete run. -/
theorem c6_progress_bounds_witness :
    sampleJob.status = JobStatus.pending ∧ sampleJob.progress ≤ 99 ∧
    ∀ s ∈ run_ansible_playbook_commits c6Input sampleJob,
      (0 ≤ s.progress ∧ s.progress ≤ 100) ∧
      (s.progress = 100 ↔ s.status = JobStatus.completed) :=
  ⟨rfl, by decide, c6_progress_bounds c6Input sampleJob rfl (by decide)⟩


/-! ## C8 — key derivation always yields a valid 32-byte base64 key -/

theorem b64DecCode_code : ∀ n, n < 64 → b64DecCode (b64Code n) = some n := by decide

theorem b64Code_lt128 : ∀ n, n < 64 → b64Code n < 128 := by decide

theorem b64Code_ne61 : ∀ n, n < 64 → b64Code n ≠ 61 := by decide

/-- The character class kept by the decoder's filter. -/
def b64KeepP (c : Nat) : Bool := (b64DecCode c).isSome || c = 61

theorem b64KeepP_code : ∀ n, n < 64 → b64KeepP (b64Code n) = true := by decide

/-- Induction on byte lists in the three-byte groups of base64. -/
theorem chunk3Ind {P : List Nat → Prop} (h0 : P []) (h1 : ∀ b, P [b])
    (h2 : ∀ b c, P [b, c])
    (h3 : ∀ b c d rest, P rest → P (b :: c :: d :: rest)) :
    ∀ l, P l
  | [] => h0
  | [b] => h1 b
  | [b, c] => h2 b c
  | b :: c :: d :: rest => h3 b c d rest (chunk3Ind h0 h1 h2 h3 rest)

theorem filter_encode (bs : List Nat) (h : ∀ b ∈ bs, b < 256) :
    (b64EncodeBytes bs).filter b64KeepP = b64EncodeBytes bs := by
  induction bs using chunk3Ind with
  | h0 => rfl
  | h1 b =>
    have hb : b < 256 := h b (by simp)
    simp [b64EncodeBytes, List.filter,
      b64KeepP_code _ (by omega : b / 4 < 64),
      b64KeepP_code _ (by omega : b % 4 * 16 < 64),
      show b64KeepP 61 = true from rfl]
  | h2 b c =>
    have hb : b < 256 := h b (by simp)
    have hc : c < 256 := h c (by simp)
    simp [b64EncodeBytes, List.filter,
      b64KeepP_code _ (by omega : b / 4 < 64),
      b64KeepP_code _ (by omega : b % 4 * 16 + c / 16 < 64),
      b64KeepP_code _ (by omega : c % 16 * 4 < 64),
      show b64KeepP 61 = true from rfl]
  | h3 b c d rest ih =>
    have hb : b < 256 := h b (by simp)
    have hc : c < 256 := h c (by simp)
    have hd : d < 256 := h d (by simp)
    have hrest : ∀ x ∈ rest, x < 256 := fun x hx => h x (by simp [hx])
    simp [b64EncodeBytes, List.filter,
      b64KeepP_code _ (by omega : b / 4 < 64),
      b64KeepP_code _ (by omega : b % 4 * 16 + c / 16 < 64),
      b64KeepP_code _ (by omega : c % 16 * 4 + d / 64 < 64),
      b64KeepP_code _ (by omega : d % 64 < 64),
      ih hrest]

theorem encode_all_lt128 (bs : List Nat) (h : ∀ b ∈ bs, b < 256) :
    (b64EncodeBytes bs).all (fun c => c < 128) = true := by
  induction bs using chunk3Ind with
  | h0 => rfl
  | h1 b =>
    have hb : b < 256 := h b (by simp)
    simp [b64EncodeBytes,
      b64Code_lt128 _ (by omega : b / 4 < 64),
      b64Code_lt128 _ (by omega : b % 4 * 16 < 64)]
  | h2 b c =>
    have hb : b < 256 := h b (by simp)
    have hc : c < 256 := h c (by simp)
    simp [b64EncodeBytes,
      b64Code_lt128 _ (by omega : b / 4 < 64),
      b64Code_lt128 _ (by omega : b % 4 * 16 + c / 16 < 64),
      b64Code_lt128 _ (by omega : c % 16 * 4 < 64)]
  | h3 b c d rest ih =>
    have hb : b < 256 := h b (by simp)
    have hc : c < 256 := h c (by simp)
    have hd : d < 256 := h d (by simp)
    have hrest : ∀ x ∈ rest, x < 256 := fun x hx => h x (by simp [hx])
    simp [b64EncodeBytes,
      b64Code_lt128 _ (by omega : b / 4 < 64),
      b64Code_lt128 _ (by omega : b % 4 * 16 + c / 16 < 64),
      b64Code_lt128 _ (by omega : c % 16 * 4 + d / 64 < 64),
      b64Code_lt128 _ (by omega : d % 64 < 64),
      ih hrest]

theorem b64Groups_encode (bs : List Nat) (h : ∀ b ∈ bs, b < 256) :
    b64Groups (b64EncodeBytes bs) = some bs := by
  induction bs using chunk3Ind with
  | h0 => rfl
  | h1 b =>
    have hb : b < 256 := h b (by simp)
    have e1 := b64DecCode_code (b / 4) (by omega)
    have e2 := b64DecCode_code (b % 4 * 16) (by omega)
    have ev : b / 4 * 4 + b % 4 * 16 / 16 = b := by omega
    show b64Groups [b64Code (b / 4), b64Code (b % 4 * 16), 61, 61] = some [b]
    simp [b64Groups, e1, e2]
    omega
  | h2 b c =>
    have hb : b < 256 := h b (by simp)
    have hc : c < 256 := h c (by simp)
    have e1 := b64DecCode_code (b / 4) (by omega)
    have e2 := b64DecCode_code (b % 4 * 16 + c / 16) (by omega)
    have e3 := b64DecCode_code (c % 16 * 4) (by omega)
    have ne3 := b64Code_ne61 (c % 16 * 4) (by omega)
    have ev1 : b / 4 * 4 + (b % 4 * 16 + c / 16) / 16 = b := by omega
    have ev2 : (b % 4 * 16 + c / 16) % 16 * 16 + c % 16 * 4 / 4 = c := by omega
    show b64Groups [b64Code (b / 4), b64Code (b % 4 * 16 + c / 16),
      b64Code (c % 16 * 4), 61] = some [b, c]
    simp [b64Groups, e1, e2, e3, ne3]
    omega
  | h3 b c d rest ih =>
    have hb : b < 256 := h b (by simp)
    have hc : c < 256 := h c (by simp)
    have hd : d < 256 := h d (by simp)
    have hrest : ∀ x ∈ rest, x < 256 := fun x hx => h x (by simp [hx])
    have e1 := b64DecCode_code (b / 4) (by omega)
    have e2 := b64DecCode_code (b % 4 * 16 + c / 16) (by omega)
    have e3 := b64DecCode_code (c % 16 * 4 + d / 64) (by omega)
    have e4 := b64DecCode_code (d % 64) (by omega)
    have ne3 := b64Code_ne61 (c % 16 * 4 + d / 64) (by omega)
    have ne4 := b64Code_ne61 (d % 64) (by omega)
    have ev1 : b / 4 * 4 + (b % 4 * 16 + c / 16) / 16 = b := by omega
    have ev2 : (b % 4 * 16 + c / 16) % 16 * 16 + (c % 16 * 4 + d / 64) / 4 = c := by omega
    have ev3 : (c % 16 * 4 + d / 64) % 4 * 64 + d % 64 = d := by omega
    show b64Groups (b64Code (b / 4) :: b64Code (b % 4 * 16 + c / 16) ::
      b64Code (c % 16 * 4 + d / 64) :: b64Code (d % 64) :: b64EncodeBytes rest) =
      some (b :: c :: d :: rest)
    simp [b64Groups, e1, e2, e3, e4, ne3, ne4, ih hrest]
    omega

/-- Decoding inverts encoding on genuine byte lists. -/
theorem b64_roundtrip (bs : List Nat) (h : ∀ b ∈ bs, b < 256) :
    urlsafe_b64decode (b64EncodeBytes bs) = some bs := by
  rw [urlsafe_b64decode]
  rw [if_pos (by simpa using encode_all_lt128 bs h)]
  rw [show (b64EncodeBytes bs).filter
      (fun c => (b64DecCode c).isSome || c = 61) = b64EncodeBytes bs from
        filter_encode bs h]
  exact b64Groups_encode bs h

theorem wordBytes_lt (w : Nat) : ∀ b ∈ wordBytes w, b < 256 := by
  intro b hb
  simp [wordBytes] at hb
  rcases hb with hb | hb | hb | hb <;> subst hb <;> exact Nat.mod_lt _ (by norm_num)

theorem sha256_length (m : List Nat) : (sha256 m).length = 32 := by
  simp [sha256, wordBytes]

theorem sha256_lt (m : List Nat) : ∀ b ∈ sha256 m, b < 256 := by
  intro b hb
  simp only [sha256, List.mem_append] at hb
  rcases hb with ((((((hb | hb) | hb) | hb) | hb) | hb) | hb) | hb <;>
    exact wordBytes_lt _ b hb

/-- C8: when the configured key decodes cleanly as url-safe base64 to
exactly 32 bytes the derivation returns the (encoded) key verbatim;
otherwise it returns the url-safe base64 encoding of the key's SHA-256
digest; in both cases the result decodes to exactly 32 bytes, a valid
Fernet key. -/
theorem c8_derive_key (k : Chars) :
    (∀ d, urlsafe_b64decode (utf8Encode k) = some d → d.length = 32 →
      derive_key k = utf8Encode k) ∧
    ((∀ d, urlsafe_b64decode (utf8Encode k) = some d → d.length ≠ 32) →
      derive_key k = b64EncodeBytes (sha256 (utf8Encode k))) ∧
    (∃ d, urlsafe_b64decode (derive_key k) = some d ∧ d.length = 32) := by
  refine ⟨?_, ?_, ?_⟩
  · intro d hd hlen
    rw [derive_key]
    simp only [hd, hlen, if_true]
  · intro hno
    rw [derive_key]
    cases hdec : urlsafe_b64decode (utf8Encode k) with
    | none => simp
    | some d => simp [hno d hdec]
  · by_cases hcase : ∃ d, urlsafe_b64decode (utf8Encode k) = some d ∧ d.length = 32
    · obtain ⟨d, hd, hlen⟩ := hcase
      refine ⟨d, ?_, hlen⟩
      rw [derive_key]
      simp only [hd, hlen, if_true]
    · have heq : derive_key k = b64EncodeBytes (sha256 (utf8Encode k)) := by
        rw [derive_key]
        cases hdec : urlsafe_b64decode (utf8Encode k) with
        | none => simp
        | some d =>
          have : d.length ≠ 32 := fun hl => hcase ⟨d, hdec, hl⟩
          simp [this]
      rw [heq, b64_roundtrip _ (sha256_lt _)]
      exact ⟨_, rfl, sha256_length _⟩

/-- Witness for C8: a short passphrase takes the SHA-256 branch and still
yields a valid key; a literal 32-byte base64 key is returned verbatim. -/
theorem c8_derive_key_witness :
    derive_key "short".data = b64EncodeBytes (sha256 (utf8Encode "short".data)) ∧
    (∃ d, urlsafe_b64decode (derive_key "short".data) = some d ∧ d.length = 32) ∧
    derive_key "AAAAAAAAAAAAAAAAAAAAAAAAAAAAAAAAAAAAAAAAAAA=".data =
      utf8Encode "AAAAAAAAAAAAAAAAAAAAAAAAAAAAAAAAAAAAAAAAAAA=".data :=
  ⟨(c8_derive_key "short".data).2.1 (fun d hd => by
      rw [show urlsafe_b64decode (utf8Encode "short".data) = none from by decide] at hd
      cases hd),
   (c8_derive_key "short".data).2.2,
   (c8_derive_key "AAAAAAAAAAAAAAAAAAAAAAAAAAAAAAAAAAAAAAAAAAA=".data).1
     (List.replicate 32 0) (by decide) (by decide)⟩

/-! ## C5 — path safety of `validate_config` -/

/-- Python `re.match` of the safe-name pattern, characterised: the string
matches iff it is nonempty and all-safe, or is such a string followed by a
single trailing newline (Python regex `$`). -/
theorem safe_match_iff (s : Chars) :
    safe_action_name_match s = true ↔
      (SafeNameSpec s ∨ ∃ b, s = b ++ ['\n'] ∧ SafeNameSpec b) := by
  rw [safe_action_name_match]
  by_cases hl : s.getLast? = some '\n'
  · rw [if_pos hl]
    have hsplit : s.dropLast ++ ['\n'] = s :=
      List.dropLast_append_getLast? '\n' (by rw [hl]; rfl)
    constructor
    · intro h
      rw [Bool.and_eq_true] at h
      right
      refine ⟨s.dropLast, hsplit.symm, ?_, ?_⟩
      · intro he
        rw [he] at h
        simp at h
      · intro c hc
        exact List.all_eq_true.mp h.2 c hc
    · rintro (⟨hne, hall⟩ | ⟨b, hb, hbne, hball⟩)
      · exfalso
        have hmem : '\n' ∈ s := by
          rw [← hsplit]
          simp
        have := hall _ hmem
        simp [isSafeChar] at this
      · have hdb : s.dropLast = b := by
          rw [hb, List.dropLast_concat]
        rw [Bool.and_eq_true, hdb]
        exact ⟨by simpa [List.isEmpty_iff] using hbne, List.all_eq_true.mpr hball⟩
  · rw [if_neg hl]
    constructor
    · intro h
      rw [Bool.and_eq_true] at h
      left
      exact ⟨by simpa [List.isEmpty_iff] using h.1, List.all_eq_true.mp h.2⟩
    · rintro (⟨hne, hall⟩ | ⟨b, hb, hbne, hball⟩)
      · rw [Bool.and_eq_true]
        exact ⟨by simpa [List.isEmpty_iff] using hne, List.all_eq_true.mpr hall⟩
      · exfalso
        exact hl (by rw [hb]; exact List.getLast?_concat b)

/-- C5 (amended): `validate_config` accepts exactly the action names that
match the safe-name pattern (under Python `re` semantics, which also
tolerate one trailing newline) whose resolved playbook path passes the
`str.startswith` prefix check against the re-resolved playbook directory
and exists; in particular every name failing the (relaxed) safe-name check
is rejected.  The prefix check is weaker than "lies within the directory":
it also admits resolved paths in sibling directories whose name extends
the playbook directory's name. -/
theorem c5_validate_config (fs : FileSystem) (dir name : Chars) :
    (validate_config fs dir name = true ↔
      ((SafeNameSpec name ∨ ∃ b, name = b ++ ['\n'] ∧ SafeNameSpec b) ∧
       (fs.resolve dir).isPrefixOf (fs.resolve (playbookPath dir name)) = true ∧
       fs.pathExists (fs.resolve (playbookPath dir name)) = true)) ∧
    (¬ SafeNameSpec name → (∀ b, name = b ++ ['\n'] → ¬ SafeNameSpec b) →
      validate_config fs dir name = false) := by
  have hiff := safe_match_iff name
  constructor
  · rw [validate_config]
    by_cases hsafe : safe_action_name_match name = true
    · rw [hsafe]
      simp only [Bool.not_true, Bool.false_eq_true, if_false]
      by_cases hpre : (fs.resolve dir).isPrefixOf (fs.resolve (playbookPath dir name)) = true
      · simp [hpre, hiff.mp hsafe]
      · simp only [Bool.not_eq_true] at hpre
        simp [hpre]
    · have hf : safe_action_name_match name = false := by
        revert hsafe; cases safe_action_name_match name <;> simp
      rw [hf]
      simp only [Bool.not_false, if_true]
      constructor
      · intro h; cases h
      · rintro ⟨hn, -, -⟩
        have := hiff.mpr hn
        rw [hf] at this
        cases this
  · intro h1 h2
    by_cases hsafe : safe_action_name_match name = true
    · exfalso
      rcases hiff.mp hsafe with h | ⟨b, hb, hok⟩
      · exact h1 h
      · exact h2 b hb hok
    · have hf : safe_action_name_match name = false := by
        revert hsafe; cases safe_action_name_match name <;> simp
      rw [validate_config, hf]
      simp

/-- The filesystem of the counterexample: inside the playbook directory
`/a/pb`, `evil.yml` is a symlink resolving to `/a/pbx/f.yml`, a file in a
SIBLING directory whose name merely extends the directory's name. -/
def fsBad : FileSystem :=
  { resolve := fun q => if q = "/a/pb/evil.yml".data then "/a/pbx/f.yml".data else q
    pathExists := fun _ => true }

/-- A filesystem with trivial resolution where every path exists. -/
def fsId : FileSystem :=
  { resolve := fun q => q
    pathExists := fun _ => true }

/-- C5 counterexample: (i) `validate_config` accepts `evil` although its
resolved path `/a/pbx/f.yml` does NOT lie within the resolved action
directory `/a/pb` — `str.startswith` admits the sibling directory
`/a/pbx`; (ii) it accepts an action name with a trailing newline, which
does not match the safe-name regex read as a whole-string match. -/
theorem c5_counterexample :
    (validate_config fsBad "/a/pb".data "evil".data = true ∧
     pathWithinDir (fsBad.resolve "/a/pb".data)
       (fsBad.resolve (playbookPath "/a/pb".data "evil".data)) = false) ∧
    (validate_config fsId "/a/pb".data ("evil".data ++ ['\n']) = true ∧
     ¬ SafeNameSpec ("evil".data ++ ['\n'])) := by
  exact ⟨⟨by decide, by decide⟩, ⟨by decide, by decide⟩⟩

/-- Witness for C5 at concrete inputs: a good name is accepted, a
traversal name is rejected. -/
theorem c5_validate_config_witness :
    validate_config fsId "/a/pb".data "ping".data = true ∧
    validate_config fsId "/a/pb".data "../etc/passwd".data = false :=
  ⟨(c5_validate_config fsId "/a/pb".data "ping".data).1.mpr
      ⟨Or.inl (by decide), by decide, by decide⟩,
   (c5_validate_config fsId "/a/pb".data "../etc/passwd".data).2 (by decide)
      (fun b hb => by
        have h1 : ("../etc/passwd".data : Chars).getLast? = some '\n' := by
          rw [hb]; exact List.getLast?_concat b
        exact absurd h1 (by decide))⟩

/-! ## C9 — workflow template write-time validation -/

theorem depCheck_none_iff (orders : List Int) (s : StepSchema) (d : Int)
    (mA mB : Chars) :
    ((if !orders.contains d then some mA
      else if s.order ≤ d then some mB else none) = none) ↔
      (d ∈ orders ∧ d < s.order) := by
  by_cases hc : orders.contains d = true
  · have hm : d ∈ orders := by simpa using hc
    rw [hc]
    by_cases hle : s.order ≤ d
    · simp only [Bool.not_true, Bool.false_eq_true, if_false, if_pos hle]
      constructor
      · intro h; cases h
      · rintro ⟨-, hlt⟩; omega
    · simp only [Bool.not_true, Bool.false_eq_true, if_false, if_neg hle]
      simp only [true_iff]
      exact ⟨hm, by omega⟩
  · have hcf : orders.contains d = false := by
      revert hc; cases orders.contains d <;> simp
    have hm : d ∉ orders := by simpa using hc
    rw [hcf]
    simp [hm]

/-- The handlers' step validation succeeds exactly on unique orders with
every dependency naming an existing strictly lower order. -/
theorem validateStepList_none_iff (steps : List StepSchema) :
    validateStepList steps = none ↔
      ((steps.map (fun s => s.order)).Nodup ∧
       ∀ s ∈ steps, ∀ d ∈ s.depends_on,
         d ∈ steps.map (fun s => s.order) ∧ d < s.order) := by
  rw [validateStepList]
  by_cases hnd : (steps.map (fun s => s.order)).Nodup
  · have hlen : (steps.map (fun s => s.order)).length =
        (steps.map (fun s => s.order)).dedup.length := by
      rw [List.dedup_eq_self.mpr hnd]
    rw [if_neg (fun hne => hne hlen)]
    rw [List.findSome?_eq_none_iff]
    constructor
    · intro h
      refine ⟨hnd, fun s hs d hd => ?_⟩
      have h2 := (List.findSome?_eq_none_iff.mp (h s hs)) d hd
      exact (depCheck_none_iff _ s d _ _).mp h2
    · rintro ⟨-, hdeps⟩ s hs
      rw [List.findSome?_eq_none_iff]
      intro d hd
      exact (depCheck_none_iff _ s d _ _).mpr (hdeps s hs d hd)
  · have hlen : (steps.map (fun s => s.order)).length ≠
        (steps.map (fun s => s.order)).dedup.length := by
      intro he
      have hs : List.Sublist (steps.map (fun s => s.order)).dedup
          (steps.map (fun s => s.order)) := List.dedup_sublist _
      have heq := hs.eq_of_length he.symm
      exact hnd (by rw [← heq]; exact List.nodup_dedup _)
    rw [if_pos hlen]
    constructor
    · intro h; cases h
    · rintro ⟨hnd2, -⟩; exact absurd hnd2 hnd

/-- C9: with well-formed scalar fields and no name conflict, creating a
template succeeds iff the steps list is nonempty with unique orders and
every dependency names an existing strictly lower order, and appends
exactly the new template; updating a template's steps succeeds under the
same condition on the new steps; any validation failure leaves the store
unchanged (`DatabaseSession` rolls the transaction back). -/
theorem c9_template_validation
    (store : List WTemplate) (nextId tid : Nat) (d : TemplateCreate)
    (u : TemplateUpdate) (ss : List StepSchema)
    (hdname : 1 ≤ d.name.length ∧ d.name.length ≤ 100)
    (hdfields : ∀ s ∈ d.steps, 0 ≤ s.order ∧ 1 ≤ s.action_name.length)
    (hdconf : ∀ t ∈ store, t.name ≠ d.name)
    (huname : u.name = none)
    (husteps : u.steps = some ss)
    (hufields : ∀ s ∈ ss, 0 ≤ s.order ∧ 1 ≤ s.action_name.length)
    (hssne : ss ≠ [])
    (hex : ∃ t ∈ store, t.tid = tid) :
    ((create_template store nextId d).1 = none ↔ StepsValid d.steps) ∧
    ((create_template store nextId d).1 = none →
      (create_template store nextId d).2 =
        store ++ [⟨nextId, d.name, d.description, d.steps⟩]) ∧
    ((create_template store nextId d).1 ≠ none →
      (create_template store nextId d).2 = store) ∧
    ((update_template store tid u).1 = none ↔ StepsValid ss) ∧
    ((update_template store tid u).1 ≠ none →
      (update_template store tid u).2 = store) := by
  have hconf : store.any (fun t => t.name = d.name) = false := by
    rw [List.any_eq_false]
    intro t ht
    simp [hdconf t ht]
  have hcreate : ∀ (P : Option Chars × List WTemplate → Prop),
      (d.steps = [] → P (some "pydantic validation error".data, store)) →
      (d.steps ≠ [] → ∀ m, validateStepList d.steps = some m → P (some m, store)) →
      (d.steps ≠ [] → validateStepList d.steps = none →
        P (none, store ++ [⟨nextId, d.name, d.description, d.steps⟩])) →
      P (create_template store nextId d) := by
    intro P hemp hsome hnone
    by_cases hne : d.steps = []
    · have hpy : pydanticCreateOk d = false := by
        simp [pydanticCreateOk, hne]
      rw [create_template, hpy]
      simpa using hemp hne
    · have hpy : pydanticCreateOk d = true := by
        rw [pydanticCreateOk]
        simp only [Bool.and_eq_true, decide_eq_true_eq, List.all_eq_true]
        refine ⟨⟨⟨hdname.1, hdname.2⟩, ?_⟩, ?_⟩
        · cases hd0 : d.steps with
          | nil => exact absurd hd0 hne
          | cons a l => simp [hd0]
        · intro s hs
          simp [(hdfields s hs).1, (hdfields s hs).2]
      rw [create_template, hpy]
      simp only [Bool.not_true, Bool.false_eq_true, if_false]
      cases hv : validateStepList d.steps with
      | some m => exact hsome hne m hv
      | none =>
        rw [hconf]
        simpa using hnone hne hv
  refine ⟨?_, ?_, ?_, ?_, ?_⟩
  · refine hcreate (fun r => r.1 = none ↔ StepsValid d.steps) ?_ ?_ ?_
    · intro hne
      constructor
      · intro h; cases h
      · rintro ⟨h0, -, -⟩; exact absurd hne h0
    · intro hne m hv
      constructor
      · intro h; cases h
      · rintro ⟨-, hv2⟩
        rw [(validateStepList_none_iff d.steps).mpr hv2] at hv
        cases hv
    · intro hne hv
      simp only [true_iff]
      exact ⟨hne, (validateStepList_none_iff d.steps).mp hv⟩
  · refine hcreate (fun r => r.1 = none →
        r.2 = store ++ [⟨nextId, d.name, d.description, d.steps⟩]) ?_ ?_ ?_
    · intro _ h; cases h
    · intro _ m _ h; cases h
    · intro _ _ _; rfl
  · refine hcreate (fun r => r.1 ≠ none → r.2 = store) ?_ ?_ ?_
    · intro _ _; rfl
    · intro _ m _ _; rfl
    · intro _ _ h; exact absurd rfl h
  all_goals
    obtain ⟨t0, ht0, htid⟩ := hex
    have hpy : pydanticUpdateOk u = true := by
      rw [pydanticUpdateOk, huname, husteps]
      simp only [Bool.and_eq_true, Bool.true_and, decide_eq_true_eq, List.all_eq_true]
      refine ⟨?_, ?_⟩
      · cases hd0 : ss with
        | nil => exact absurd hd0 hssne
        | cons a l => simp [hd0]
      · intro s hs
        simp [(hufields s hs).1, (hufields s hs).2]
    have hfind : ∃ t, store.find? (fun t => t.tid = tid) = some t := by
      cases hf : store.find? (fun t => t.tid = tid) with
      | some t => exact ⟨t, rfl⟩
      | none =>
        rw [List.find?_eq_none] at hf
        exact absurd (by simpa using htid) (by simpa using hf t0 ht0)
    obtain ⟨t, hfd⟩ := hfind
  · rw [update_template]
    simp only [hpy, Bool.not_true, Bool.false_eq_true, if_false, hfd, huname, husteps]
    cases hv : validateStepList ss with
    | some m =>
      simp only [hv]
      constructor
      · intro h; cases h
      · rintro ⟨-, hv2⟩
        rw [(validateStepList_none_iff ss).mpr hv2] at hv
        cases hv
    | none =>
      simp only [hv, true_iff]
      exact ⟨hssne, (validateStepList_none_iff ss).mp hv⟩
  · rw [update_template]
    simp only [hpy, Bool.not_true, Bool.false_eq_true, if_false, hfd, huname, husteps]
    cases hv : validateStepList ss with
    | some m => simp [hv]
    | none => simp only [hv]; intro h; exact absurd rfl h

/-- Concrete template data for the C9 witness (the spec's scenario 4
shape). -/
def step1 : StepSchema := ⟨1, "prep".data, "ansible".data, [], none, none⟩

def step2 : StepSchema := ⟨2, "apply".data, "ansible".data, [1], some "revert".data, none⟩

def tmpl0 : WTemplate := ⟨5, "wf".data, none, [step1]⟩

def createReq : TemplateCreate := ⟨"Full Setup".data, none, [step1, step2]⟩

def updateReq : TemplateUpdate := ⟨none, none, some [step1, step2]⟩

/-- Witness for C9 at concrete data. -/
theorem c9_template_validation_witness :
    (create_template [tmpl0] 6 createReq).1 = none ∧
    (update_template [tmpl0] 5 updateReq).1 = none :=
  ⟨(c9_template_validation [tmpl0] 6 5 createReq updateReq [step1, step2]
      (by decide) (by decide) (by decide) rfl rfl (by decide) (by decide)
      ⟨tmpl0, by decide, by decide⟩).1.mpr (by decide),
   (c9_template_validation [tmpl0] 6 5 createReq updateReq [step1, step2]
      (by decide) (by decide) (by decide) rfl rfl (by decide) (by decide)
      ⟨tmpl0, by decide, by decide⟩).2.2.2.1.mpr (by decide)⟩

/-! ## C7 — rollback: creation order, serialization, final status -/

theorem mem_insertDesc (x : SnapStep) (l : List SnapStep) (z : SnapStep) :
    z ∈ insertDesc x l ↔ z = x ∨ z ∈ l := by
  induction l with
  | nil => simp [insertDesc]
  | cons y ys ih =>
    rw [insertDesc]
    by_cases hc : y.order ≤ x.order
    · rw [if_pos hc]
      simp [List.mem_cons]
    · rw [if_neg hc]
      simp only [List.mem_cons, ih]
      tauto

theorem mem_sortStepsDesc (l : List SnapStep) (z : SnapStep) :
    z ∈ sortStepsDesc l ↔ z ∈ l := by
  induction l with
  | nil => simp [sortStepsDesc]
  | cons y ys ih =>
    rw [sortStepsDesc, mem_insertDesc]
    simp [ih]

theorem insertDesc_perm (x : SnapStep) (l : List SnapStep) :
    (insertDesc x l).Perm (x :: l) := by
  induction l with
  | nil => exact List.Perm.refl _
  | cons y ys ih =>
    rw [insertDesc]
    by_cases hc : y.order ≤ x.order
    · rw [if_pos hc]
    · rw [if_neg hc]
      exact (ih.cons y).trans (List.Perm.swap x y ys)

theorem sortStepsDesc_perm (l : List SnapStep) : (sortStepsDesc l).Perm l := by
  induction l with
  | nil => exact List.Perm.refl _
  | cons y ys ih =>
    rw [sortStepsDesc]
    exact (insertDesc_perm y (sortStepsDesc ys)).trans (ih.cons y)

theorem insertDesc_pairwise (x : SnapStep) (l : List SnapStep)
    (h : l.Pairwise (fun a b => b.order ≤ a.order)) :
    (insertDesc x l).Pairwise (fun a b => b.order ≤ a.order) := by
  induction l with
  | nil => simp [insertDesc]
  | cons y ys ih =>
    obtain ⟨hy, hys⟩ := List.pairwise_cons.mp h
    rw [insertDesc]
    by_cases hc : y.order ≤ x.order
    · rw [if_pos hc]
      refine List.pairwise_cons.mpr ⟨?_, h⟩
      intro z hz
      rcases List.mem_cons.mp hz with hz | hz
      · subst hz; exact hc
      · have := hy z hz
        omega
    · rw [if_neg hc]
      refine List.pairwise_cons.mpr ⟨?_, ih hys⟩
      intro z hz
      rcases (mem_insertDesc x ys z).mp hz with hz | hz
      · subst hz; omega
      · exact hy z hz

theorem sortStepsDesc_pairwise (l : List SnapStep) :
    (sortStepsDesc l).Pairwise (fun a b => b.order ≤ a.order) := by
  induction l with
  | nil => simp [sortStepsDesc]
  | cons y ys ih => exact insertDesc_pairwise y (sortStepsDesc ys) ih

/-- The qualifying steps are strictly decreasing in step order when the
snapshot's orders are distinct. -/
theorem rollbackSteps_strict (inst : WInstance)
    (hnodup : (inst.snapshotSteps.map (fun st => st.order)).Nodup) :
    (rollbackSteps inst).Pairwise (fun a b => b.order < a.order) := by
  have hle : (rollbackSteps inst).Pairwise (fun a b => b.order ≤ a.order) :=
    List.Pairwise.sublist (List.filter_sublist _) (sortStepsDesc_pairwise _)
  have hnd2 : ((sortStepsDesc inst.snapshotSteps).map (fun st => st.order)).Nodup :=
    (((sortStepsDesc_perm inst.snapshotSteps).map (fun st => st.order)).nodup_iff).mpr hnodup
  have hne : (rollbackSteps inst).Pairwise (fun a b => a.order ≠ b.order) := by
    have := (List.pairwise_map.mp hnd2)
    exact List.Pairwise.sublist (List.filter_sublist _) this
  have := hle.and hne
  exact this.imp (fun h => by omega)

/-- Every qualifying snapshot step gets a rollback job. -/
theorem rollbackSteps_complete (inst : WInstance) (st : SnapStep)
    (hmem : st ∈ inst.snapshotSteps)
    (hcomp : (completedOrders inst).contains st.order = true)
    (hrb : st.rollback_action.isSome = true) :
    st ∈ rollbackSteps inst := by
  have hm : st.order ∈ completedOrders inst := by simpa using hcomp
  rw [rollbackSteps, List.mem_filter]
  exact ⟨(mem_sortStepsDesc _ _).mpr hmem, by simp [hrb, hm]⟩

/-- The rollback jobs created by `_trigger_rollback`, positioned after the
instance's existing jobs. -/
def rbCreated (nextId : Nat) (inst : WInstance) : List Job :=
  (rollbackSteps inst).enum.map (fun p => mkRollbackJob inst (nextId + p.1) p.2)

theorem trigger_rollback_jobs (now nextId : Nat) (inst : WInstance) :
    (trigger_rollback now nextId inst).jobs = inst.jobs ++ rbCreated nextId inst := by
  rw [trigger_rollback, rbCreated]
  split <;> rfl

theorem trigger_rollback_empty (now nextId : Nat) (inst : WInstance)
    (h : rollbackSteps inst = []) :
    (trigger_rollback now nextId inst).status = WStatus.failed ∧
    (trigger_rollback now nextId inst).error_message =
      some "Workflow failed, no rollback actions defined".data := by
  rw [trigger_rollback]
  rw [if_pos (by simp [h])]
  exact ⟨rfl, rfl⟩

theorem trigger_rollback_nonempty (now nextId : Nat) (inst : WInstance)
    (h : rollbackSteps inst ≠ []) :
    (trigger_rollback now nextId inst).status = WStatus.rollingBack := by
  rw [trigger_rollback]
  rw [if_neg (by simp [h])]

theorem rbCreated_fields (nextId : Nat) (inst : WInstance) :
    ∀ j ∈ rbCreated nextId inst, j.is_rollback = true ∧ j.status = JobStatus.pending := by
  intro j hj
  rw [rbCreated, List.mem_map] at hj
  obtain ⟨p, -, hp⟩ := hj
  subst hp
  exact ⟨rfl, rfl⟩

/-- Mapping a per-step function over the created rollback jobs recovers
the per-step data. -/
theorem rbCreated_map {γ : Type} (nextId : Nat) (inst : WInstance)
    (g : Job → γ) (k : SnapStep → γ)
    (h : ∀ (n : Nat) (st : SnapStep), g (mkRollbackJob inst n st) = k st) :
    (rbCreated nextId inst).map g = (rollbackSteps inst).map k := by
  rw [rbCreated, List.map_map]
  have he : (g ∘ fun p : Nat × SnapStep => mkRollbackJob inst (nextId + p.1) p.2) =
      (fun p : Nat × SnapStep => k p.2) := by
    funext p
    exact h (nextId + p.1) p.2
  rw [he, show (fun p : Nat × SnapStep => k p.2) = k ∘ Prod.snd from rfl,
    ← List.map_map, List.enum_map_snd]

theorem setFirstPendingRB_skip (o : JobStatus) (j : Job) (l : List Job)
    (h : ¬(j.is_rollback = true ∧ j.status = JobStatus.pending)) :
    setFirstPendingRB o (j :: l) = j :: setFirstPendingRB o l := by
  rw [setFirstPendingRB, if_neg (by simpa [Bool.and_eq_true] using h)]

theorem setFirstPendingRB_hit (o : JobStatus) (j : Job) (l : List Job)
    (h : j.is_rollback = true ∧ j.status = JobStatus.pending) :
    setFirstPendingRB o (j :: l) = { j with status := o } :: l := by
  rw [setFirstPendingRB, if_pos (by simpa [Bool.and_eq_true] using h)]

theorem setFirstPendingRB_append (o : JobStatus) (front rest : List Job)
    (hf : ∀ j ∈ front, ¬(j.is_rollback = true ∧ j.status = JobStatus.pending)) :
    setFirstPendingRB o (front ++ rest) = front ++ setFirstPendingRB o rest := by
  induction front with
  | nil => rfl
  | cons j js ih =>
    rw [List.cons_append, setFirstPendingRB_skip o j _ (hf j (by simp)),
      ih (fun j hj => hf j (by simp [hj]))]
    rfl

theorem handle_rb_pending (now : Nat) (st : WInstance) (j : Job)
    (hj : j ∈ st.jobs) (hrb : j.is_rollback = true) (hp : j.status = JobStatus.pending) :
    handle_rollback_completion now st = st := by
  have hmem : j ∈ (st.jobs.filter (fun j => j.is_rollback)).filter
      (fun j => j.status = JobStatus.pending) := by
    rw [List.mem_filter, List.mem_filter]
    exact ⟨⟨hj, hrb⟩, by simp [hp]⟩
  have hne : ((st.jobs.filter (fun j => j.is_rollback)).filter
      (fun j => j.status = JobStatus.pending)).isEmpty = false := by
    cases hE : ((st.jobs.filter (fun j => j.is_rollback)).filter
        (fun j => j.status = JobStatus.pending)).isEmpty with
    | false => rfl
    | true =>
      rw [List.isEmpty_iff] at hE
      rw [hE] at hmem
      cases hmem
  rw [handle_rollback_completion, if_pos (by simp only [hne, Bool.not_false])]

theorem handle_rb_final (now : Nat) (st : WInstance)
    (hnopend : ∀ j ∈ st.jobs, j.is_rollback = true → j.status ≠ JobStatus.pending) :
    handle_rollback_completion now st =
      if ((st.jobs.filter (fun j => j.is_rollback)).filter
          (fun j => j.status = JobStatus.failed)) = [] then
        { st with status := WStatus.rolledBack, completed_at := some now }
      else
        { st with
          status := WStatus.failed
          completed_at := some now
          error_message := some "Rollback failed".data } := by
  have hpend : (st.jobs.filter (fun j => j.is_rollback)).filter
      (fun j => j.status = JobStatus.pending) = [] := by
    rw [List.filter_eq_nil_iff]
    intro j hj
    rw [List.mem_filter] at hj
    simp [hnopend j hj.1 (by simpa using hj.2)]
  rw [handle_rollback_completion, hpend]
  by_cases hfail : ((st.jobs.filter (fun j => j.is_rollback)).filter
      (fun j => j.status = JobStatus.failed)) = []
  · rw [if_pos hfail, if_neg (by simp), if_neg (by simp [hfail])]
  · rw [if_neg hfail, if_neg (by simp)]
    have : ((st.jobs.filter (fun j => j.is_rollback)).filter
        (fun j => j.status = JobStatus.failed)).isEmpty = false := by
      cases hE : ((st.jobs.filter (fun j => j.is_rollback)).filter
          (fun j => j.status = JobStatus.failed)).isEmpty with
      | false => rfl
      | true => exact absurd (List.isEmpty_iff.mp hE) hfail
    rw [if_pos (by simp only [this, Bool.not_false])]

/-- The serialized rollback phase, run over any split of the instance's
jobs into the original (non-rollback) jobs, the finished rollback jobs and
the pending rollback jobs: the pending jobs receive the outcomes in list
order, and the final status is ROLLED_BACK exactly when nothing failed. -/
theorem runRB_run (now : Nat) :
    ∀ (outs : List JobStatus) (front done pend : List Job) (st : WInstance),
      st.jobs = front ++ done ++ pend →
      st.status = WStatus.rollingBack →
      (∀ j ∈ front, j.is_rollback = false) →
      (∀ j ∈ done, j.is_rollback = true ∧
        (j.status = JobStatus.completed ∨ j.status = JobStatus.failed)) →
      (∀ j ∈ pend, j.is_rollback = true ∧ j.status = JobStatus.pending) →
      outs.length = pend.length →
      (∀ o ∈ outs, o = JobStatus.completed ∨ o = JobStatus.failed) →
      pend ≠ [] →
      ((runRollbackPhase now outs st).jobs.filter (fun j => j.is_rollback)).map
          (fun j => j.status) = done.map (fun j => j.status) ++ outs ∧
      ((done.filter (fun j => j.status = JobStatus.failed) = [] ∧
          ∀ o ∈ outs, o = JobStatus.completed) →
        (runRollbackPhase now outs st).status = WStatus.rolledBack) ∧
      ((done.filter (fun j => j.status = JobStatus.failed) ≠ [] ∨
          ∃ o ∈ outs, o = JobStatus.failed) →
        (runRollbackPhase now outs st).status = WStatus.failed ∧
        (runRollbackPhase now outs st).error_message = some "Rollback failed".data) := by
  intro outs
  induction outs with
  | nil =>
    intro front done pend st hjobs hst hf hd hp hlen houts hpne
    exact absurd (List.length_eq_zero.mp hlen.symm) hpne
  | cons o os ih =>
    intro front done pend st hjobs hst hf hd hp hlen houts hpne
    cases pend with
    | nil => simp at hlen
    | cons p ps =>
      have hpj := hp p (by simp)
      have hguard : (decide (st.status = WStatus.rollingBack) &&
          st.jobs.any (fun j => j.is_rollback && j.status = JobStatus.pending)) = true := by
        rw [Bool.and_eq_true]
        refine ⟨by simp [hst], ?_⟩
        rw [List.any_eq_true]
        exact ⟨p, by rw [hjobs]; simp, by simp [hpj.1, hpj.2]⟩
      have hset : setFirstPendingRB o st.jobs =
          front ++ done ++ ({ p with status := o } :: ps) := by
        rw [hjobs, List.append_assoc, setFirstPendingRB_append o front _
          (fun (j : Job) hj => by simp [hf j hj]),
          setFirstPendingRB_append o done _
          (fun (j : Job) hj => fun hcon => by
            have := (hd j hj).2
            rcases this with h | h <;> rw [hcon.2] at h <;> cases h),
          setFirstPendingRB_hit o p ps hpj, ← List.append_assoc]
      have hout1 := houts o (by simp)
      rw [runRollbackPhase, if_pos hguard, hset]
      cases ps with
      | nil =>
        have hos : os = [] := by
          rw [List.length_cons, List.length_cons, List.length_nil] at hlen
          exact List.length_eq_zero.mp (by omega)
        subst hos
        set st1 : WInstance := { st with
          jobs := front ++ done ++ [{ p with status := o }] } with hst1
        have hnopend : ∀ j ∈ st1.jobs, j.is_rollback = true → j.status ≠ JobStatus.pending := by
          intro j hj hrb
          rw [hst1] at hj
          simp only [List.mem_append, List.mem_singleton] at hj
          rcases hj with (hj | hj) | hj
          · rw [hf j hj] at hrb; cases hrb
          · rcases (hd j hj).2 with h | h <;> rw [h] <;> simp
          · subst hj
            rcases hout1 with h | h <;> simp [h]
        rw [handle_rb_final now st1 hnopend]
        have hfilter : st1.jobs.filter (fun j => j.is_rollback) =
            done ++ [{ p with status := o }] := by
          rw [hst1]
          show (front ++ done ++ [{ p with status := o }]).filter _ = _
          rw [List.append_assoc, List.filter_append,
            List.filter_eq_nil_iff.mpr (fun j hj => by simp [hf j hj]),
            List.nil_append, List.filter_append,
            List.filter_eq_self.mpr (fun j hj => by simp [(hd j hj).1]),
            show ([{ p with status := o }] : List Job).filter (fun j => j.is_rollback) =
              [{ p with status := o }] from by simp [hpj.1]]
        by_cases hfail : ((st1.jobs.filter (fun j => j.is_rollback)).filter
            (fun j => j.status = JobStatus.failed)) = []
        · rw [if_pos hfail]
          have hdfail : done.filter (fun j => j.status = JobStatus.failed) = [] := by
            rw [hfilter, List.filter_append] at hfail
            exact List.append_eq_nil.mp hfail |>.1
          have hoc : o = JobStatus.completed := by
            rcases hout1 with h | h
            · exact h
            · exfalso
              rw [hfilter, List.filter_append] at hfail
              have := List.append_eq_nil.mp hfail |>.2
              simp [h] at this
          refine ⟨?_, ?_, ?_⟩
          · show (((front ++ done ++ [{ p with status := o }] : List Job)).filter
              (fun (j : Job) => j.is_rollback)).map (fun (j : Job) => j.status) = _
            rw [show (front ++ done ++ [{ p with status := o }] : List Job) = st1.jobs from rfl,
              hfilter]
            simp
          · intro _; rfl
          · rintro (h | ⟨o2, ho2, hfo⟩)
            · exact absurd hdfail h
            · rw [List.mem_singleton] at ho2
              subst ho2
              rw [hoc] at hfo
              cases hfo
        · rw [if_neg hfail]
          refine ⟨?_, ?_, ?_⟩
          · show (((front ++ done ++ [{ p with status := o }] : List Job)).filter
              (fun (j : Job) => j.is_rollback)).map (fun (j : Job) => j.status) = _
            rw [show (front ++ done ++ [{ p with status := o }] : List Job) = st1.jobs from rfl,
              hfilter]
            simp
          · rintro ⟨hdfail, hall⟩
            exfalso
            apply hfail
            rw [hfilter, List.filter_append, hdfail, List.nil_append]
            have hoc := hall o (by simp)
            simp [hoc]
          · intro _; exact ⟨rfl, rfl⟩
      | cons p2 ps2 =>
        set st1 : WInstance := { st with
          jobs := front ++ done ++ ({ p with status := o } :: p2 :: ps2) } with hst1
        have hp2 := hp p2 (by simp)
        have hhandle : handle_rollback_completion now st1 = st1 := by
          refine handle_rb_pending now st1 p2 ?_ hp2.1 hp2.2
          rw [hst1]
          simp
        rw [hhandle]
        have hjobs1 : st1.jobs = front ++ (done ++ [{ p with status := o }]) ++ (p2 :: ps2) := by
          rw [hst1]
          simp
        have hres := ih front (done ++ [{ p with status := o }]) (p2 :: ps2) st1 hjobs1
          (by rw [hst1]; exact hst)
          hf
          (by
            intro j hj
            rw [List.mem_append, List.mem_singleton] at hj
            rcases hj with hj | hj
            · exact hd j hj
            · subst hj
              exact ⟨hpj.1, hout1⟩)
          (fun j hj => hp j (by simp [hj]))
          (by simpa using hlen)
          (fun o2 ho2 => houts o2 (by simp [ho2]))
          (by simp)
        refine ⟨?_, ?_, ?_⟩
        · rw [hres.1]
          simp
        · rintro ⟨hdfail, hall⟩
          refine hres.2.1 ⟨?_, fun o2 ho2 => hall o2 (by simp [ho2])⟩
          rw [List.filter_append, hdfail, List.nil_append]
          have hoc := hall o (by simp)
          simp [hoc]
        · rintro (h | ⟨o2, ho2, hfo⟩)
          · refine hres.2.2 (Or.inl ?_)
            rw [List.filter_append]
            intro hcon
            exact h (List.append_eq_nil.mp hcon).1
          · rw [List.mem_cons] at ho2
            rcases ho2 with ho2 | ho2
            · subst ho2
              refine hres.2.2 (Or.inl ?_)
              rw [List.filter_append]
              intro hcon
              have := (List.append_eq_nil.mp hcon).2
              simp [hfo] at this
            · exact hres.2.2 (Or.inr ⟨o2, ho2, hfo⟩)

/-- C7: when rollback is triggered, (a) exactly one rollback job is
created per completed non-rollback step whose snapshot entry has a
`rollback_action`, in strictly decreasing step order, with negated
`step_order` and the rollback action as its action; (b) when there are no
such steps the instance fails with "Workflow failed, no rollback actions
defined"; (c) the rollback jobs execute serialized, receiving their
terminal outcomes in creation order, and the instance ends ROLLED_BACK
when all of them complete and FAILED with "Rollback failed" when any of
them fails. -/
theorem c7_rollback (now nextId : Nat) (inst : WInstance) (outcomes : List JobStatus)
    (hnr : ∀ j ∈ inst.jobs, j.is_rollback = false)
    (hnodup : (inst.snapshotSteps.map (fun st => st.order)).Nodup)
    (hlen : outcomes.length = (rollbackSteps inst).length)
    (houts : ∀ o ∈ outcomes, o = JobStatus.completed ∨ o = JobStatus.failed) :
    ((trigger_rollback now nextId inst).jobs.filter (fun (j : Job) => j.is_rollback)).map
        (fun j => (j.step_order, j.action_name)) =
      (rollbackSteps inst).map (fun st => (some (-st.order), st.rollback_action.getD [])) ∧
    (rollbackSteps inst).Pairwise (fun a b => b.order < a.order) ∧
    (∀ st ∈ inst.snapshotSteps,
      (st ∈ rollbackSteps inst ↔
        st.order ∈ completedOrders inst ∧ st.rollback_action.isSome = true)) ∧
    (rollbackSteps inst = [] →
      (trigger_rollback now nextId inst).status = WStatus.failed ∧
      (trigger_rollback now nextId inst).error_message =
        some "Workflow failed, no rollback actions defined".data) ∧
    (rollbackSteps inst ≠ [] →
      (trigger_rollback now nextId inst).status = WStatus.rollingBack ∧
      ((runRollbackPhase now outcomes (trigger_rollback now nextId inst)).jobs.filter
          (fun (j : Job) => j.is_rollback)).map (fun j => j.status) = outcomes ∧
      ((∀ o ∈ outcomes, o = JobStatus.completed) →
        (runRollbackPhase now outcomes (trigger_rollback now nextId inst)).status =
          WStatus.rolledBack) ∧
      ((∃ o ∈ outcomes, o = JobStatus.failed) →
        (runRollbackPhase now outcomes (trigger_rollback now nextId inst)).status =
          WStatus.failed ∧
        (runRollbackPhase now outcomes (trigger_rollback now nextId inst)).error_message =
          some "Rollback failed".data)) := by
  have hfilter : (trigger_rollback now nextId inst).jobs.filter
      (fun (j : Job) => j.is_rollback) = rbCreated nextId inst := by
    rw [trigger_rollback_jobs, List.filter_append,
      List.filter_eq_nil_iff.mpr (fun j hj => by simp [hnr j hj]),
      List.nil_append,
      List.filter_eq_self.mpr (fun j hj => by simp [(rbCreated_fields nextId inst j hj).1])]
  have hrblen : (rbCreated nextId inst).length = (rollbackSteps inst).length := by
    rw [rbCreated, List.length_map, List.enum_length]
  refine ⟨?_, rollbackSteps_strict inst hnodup, ?_, trigger_rollback_empty now nextId inst, ?_⟩
  · rw [hfilter]
    exact rbCreated_map nextId inst _ _ (fun n st => rfl)
  · intro st hmem
    constructor
    · intro hin
      rw [rollbackSteps, List.mem_filter] at hin
      have := hin.2
      rw [Bool.and_eq_true] at this
      exact ⟨by simpa using this.1, this.2⟩
    · rintro ⟨h1, h2⟩
      exact rollbackSteps_complete inst st hmem (by simpa using h1) h2
  · intro hne
    have hpne : rbCreated nextId inst ≠ [] := by
      intro hemp
      apply hne
      have := hrblen
      rw [hemp] at this
      simpa using (List.length_eq_zero.mp this.symm)
    have hjobs : (trigger_rollback now nextId inst).jobs =
        inst.jobs ++ [] ++ rbCreated nextId inst := by
      rw [trigger_rollback_jobs]
      simp
    have hres := runRB_run now outcomes inst.jobs [] (rbCreated nextId inst)
      (trigger_rollback now nextId inst) hjobs
      (trigger_rollback_nonempty now nextId inst hne)
      hnr
      (by intro j hj; cases hj)
      (rbCreated_fields nextId inst)
      (by rw [hrblen]; exact hlen)
      houts
      hpne
    refine ⟨trigger_rollback_nonempty now nextId inst hne, ?_, ?_, ?_⟩
    · rw [hres.1]
      simp
    · intro hall
      exact hres.2.1 ⟨rfl, hall⟩
    · intro hex
      exact hres.2.2 (Or.inr hex)

/-- A workflow job for the C7 witness. -/
def wfJob (i : Nat) (o : Int) (st : JobStatus) : Job :=
  { sampleJob with
    id := i
    step_order := some o
    status := st
    workflow_instance_id := some 1 }

/-- A workflow instance where steps 1 and 2 completed (both with rollback
actions), step 3 failed; rollback is triggered. -/
def wfInst : WInstance :=
  { id := 1
    jobs := [wfJob 1 1 JobStatus.completed, wfJob 2 2 JobStatus.completed,
             wfJob 3 3 JobStatus.failed]
    status := WStatus.running
    error_message := none
    completed_at := none
    snapshotSteps := [⟨1, "prep".data, "ansible".data, some "undo1".data⟩,
                      ⟨2, "apply".data, "ansible".data, some "undo2".data⟩,
                      ⟨3, "final".data, "ansible".data, some "undo3".data⟩]
    rollback_on_failure := true
    device_ids := [1]
    extra_vars := none }

/-- Witness for C7: both rollback jobs (for steps 2 then 1) complete and
the instance ends ROLLED_BACK; the created rollback jobs carry the negated
step orders in decreasing order of the steps they compensate. -/
theorem c7_rollback_witness :
    (runRollbackPhase 9 [JobStatus.completed, JobStatus.completed]
        (trigger_rollback 9 10 wfInst)).status = WStatus.rolledBack ∧
    ((trigger_rollback 9 10 wfInst).jobs.filter (fun (j : Job) => j.is_rollback)).map
        (fun j => (j.step_order, j.action_name)) =
      [(some (-2), "undo2".data), (some (-1), "undo1".data)] := by
  have h := c7_rollback 9 10 wfInst [JobStatus.completed, JobStatus.completed]
    (by decide) (by decide) (by decide) (by decide)
  refine ⟨(h.2.2.2.2 (by decide)).2.2.1 (by decide), ?_⟩
  rw [h.1]
  decide

end Homelab
